import Mathlib

/-!
Shallow embedding of the xHCI driver core in src/xhcid/src/xhci/mod.rs.

The register blocks, rings and contexts are modelled as explicit Lean
structures; the hardware side (status-register reads, command-ring control
reads, completion events placed on the event ring, and the DMA allocator)
is modelled as oracle streams inside a `World`.  Every externally visible
action of the driver (register writes, doorbell rings, command Trb fills,
event reads, allocations and frees) is recorded in an event trace so that
ordering and counting properties can be stated.

The submodules of mod.rs (trb.rs, command.rs, device.rs, port.rs, event.rs,
operational.rs, capability.rs, runtime.rs, doorbell.rs) are not present in
the repository snapshot; their operations are modelled from the spec where
mod.rs calls them, as marked in the doc comments below.
-/

namespace Xhcid

/-- Io::readf of the syscall crate: `(read() & mask) == mask`, used by the
driver for every status-bit poll. -/
def readf (v mask : Nat) : Bool := v &&& mask == mask

/-- Io::writef with a false value clears the mask bits read-modify-write;
`(v ||| mask) - mask` clears exactly the bits of `mask` (the subtraction is
exact bitwise because every bit of `mask` is set in `v ||| mask`). -/
def writefClear (v mask : Nat) : Nat := (v ||| mask) - mask

/-- Trb: 16 bytes, three 32-bit parameter words and a 32-bit control word,
plus the software-side ring-slot ownership flag mutated by `reserved`. -/
structure Trb where
  param0 : Nat
  param1 : Nat
  param2 : Nat
  control : Nat
  reserved : Bool
deriving DecidableEq, Repr

def trbZero : Trb := { param0 := 0, param1 := 0, param2 := 0, control := 0, reserved := false }

/-- Modelled from the spec: trb.rs is absent.  The control word holds the
cycle bit in bit 0 and the type tag in bits 10-15; slot-related Trbs carry
the slot id in control-word bits 24-31.  Enable Slot is command type 9. -/
def Trb.enable_slot (slot : Nat) (cycle : Bool) : Trb :=
  { param0 := 0, param1 := 0, param2 := 0,
    control := ((slot % 256) <<< 24) ||| (9 <<< 10) ||| (if cycle then 1 else 0),
    reserved := true }

/-- Modelled from the spec: trb.rs is absent.  Address Device is command
type 11; it carries the input-context physical pointer in the parameter
words and the slot id in control-word bits 24-31. -/
def Trb.address_device (slot : Nat) (input : Nat) (cycle : Bool) : Trb :=
  { param0 := input % 2 ^ 32, param1 := (input >>> 32) % 2 ^ 32, param2 := 0,
    control := ((slot % 256) <<< 24) ||| (11 <<< 10) ||| (if cycle then 1 else 0),
    reserved := true }

/-- Modelled from the spec: event.rs is absent.  Completion events carry a
completion code; in the Trb wire format it occupies bits 24-31 of the
status parameter word (the third 32-bit word). -/
def Trb.completionCode (t : Trb) : Nat := (t.param2 >>> 24) % 256

/-- The xHCI Success completion code. -/
def completionSuccess : Nat := 1

/-- Software-visible operational, interrupter-0 and doorbell register
state, as last written by the driver. -/
structure RegFile where
  usb_cmd : Nat
  config : Nat
  dcbaap : Nat
  crcr : Nat
  erstsz : Nat
  erdp : Nat
  erstba : Nat
  db0 : Nat
deriving DecidableEq, Repr

/-- Register names used to tag write events in the trace. -/
inductive Reg
  | usb_cmd
  | config
  | dcbaap
  | crcr
  | erstsz
  | erdp
  | erstba
deriving DecidableEq, Repr

/-- Modelled from the spec: device.rs is absent.  The per-slot staging
structure written by probe: add-context bitmap, slot context words a and b,
endpoint-0 context word b and transfer-ring pointer halves. -/
structure InputContext where
  add_context : Nat
  slot_a : Nat
  slot_b : Nat
  ep0_b : Nat
  ep0_trh : Nat
  ep0_trl : Nat
deriving DecidableEq, Repr

/-- The input context exactly as probe fills it for port index `i` with a
transfer ring at physical address `ph`. -/
def inputCtx (i ph : Nat) : InputContext :=
  { add_context := (1 <<< 1) ||| 1,
    slot_a := 1 <<< 27,
    slot_b := ((i + 1) % 256) <<< 16,
    ep0_b := (4096 <<< 16) ||| (4 <<< 3) ||| (3 <<< 1),
    ep0_trh := (ph >>> 32) % 2 ^ 32,
    ep0_trl := (ph % 2 ^ 32) ||| 1 }

/-- The command kinds probe can fill into the command ring. -/
inductive CmdKind
  | enableSlot
  | addressDevice (slot : Nat) (inputPtr : Nat)
deriving DecidableEq, Repr

/-- Trace of externally visible actions of the driver.  `portRead`,
`fillCmd`, `eventRead` and `inputWrite` carry the probe loop index of the
port they belong to. -/
inductive Ev
  | statusRead (v : Nat)
  | regWrite (r : Reg) (v : Nat)
  | portRead (port : Nat) (status : Nat)
  | fillCmd (port : Nat) (c : CmdKind)
  | doorbell (index : Nat) (target : Nat)
  | crcrRead (v : Nat)
  | eventRead (port : Nat) (which : Nat) (control : Nat)
  | inputWrite (port : Nat) (ctx : InputContext)
  | allocEv (id : Nat) (phys : Nat)
  | allocFailEv
  | freeEv (id : Nat)
deriving DecidableEq, Repr

/-- Hardware and allocator oracles, plus bookkeeping of live DMA
allocations (id, physical address) and of the physical ring base addresses
that have been committed to the controller. -/
structure World where
  statusVals : List Nat
  crcrVals : List Nat
  portStatus : List Nat
  hwEvents : List Trb
  allocResults : List (Option Nat)
  nextAllocId : Nat
  live : List (Nat × Nat)
  committed : List Nat
deriving DecidableEq, Repr

/-- Errors the driver can return; Dma::zeroed failure is the only fallible
operation in this core. -/
inductive XhciError
  | allocFailure
deriving DecidableEq, Repr

/-- Dma::zeroed: consume the next allocator oracle entry; `none` in the
oracle is an allocation failure.  A success registers a fresh live
allocation id. -/
def allocDma (w : World) : Option (Option (Nat × Nat) × World × List Ev) :=
  match w.allocResults with
  | [] => none
  | r :: rest =>
    match r with
    | none => some (none, { w with allocResults := rest }, [Ev.allocFailEv])
    | some phys =>
      some (some (w.nextAllocId, phys),
        { w with allocResults := rest, nextAllocId := w.nextAllocId + 1,
                 live := (w.nextAllocId, phys) :: w.live },
        [Ev.allocEv w.nextAllocId phys])

/-- Dropping a Dma buffer frees its memory. -/
def freeDma (id : Nat) (w : World) : World × List Ev :=
  ({ w with live := w.live.filter (fun pr => !(pr.1 == id)) }, [Ev.freeEv id])

/-- Busy-wait loop on a hardware register: consume oracle values until one
satisfies the exit condition; `none` models the unbounded loop never
exiting within the oracle. The returned first list is every value read,
ending with the one that satisfied the exit condition. -/
def pollUntil (p : Nat → Bool) : List Nat → Option (List Nat × List Nat)
  | [] => none
  | v :: rest =>
    if p v then some ([v], rest)
    else
      match pollUntil p rest with
      | none => none
      | some (reads, rest') => some (v :: reads, rest')

/-- Modelled from the spec: device.rs is absent.  DeviceList holds the
per-slot device-context pointer table, entries null until a slot completes
addressing. -/
structure DeviceList where
  allocId : Nat
  physBase : Nat
  len : Nat
  entries : List Nat
deriving DecidableEq, Repr

/-- Modelled from the spec: event.rs is absent.  EventRing owns its Trb
buffer and the segment-table descriptor, with a consumer dequeue index and
cycle state. -/
structure EventRing where
  allocId : Nat
  physBase : Nat
  steAllocId : Nat
  stePhys : Nat
  dequeue : Nat
  cycle : Bool
deriving DecidableEq, Repr

/-- Modelled from the spec: command.rs is absent.  CommandRing is a
circular Trb buffer with a producer enqueue index and cycle bit, owning
its paired EventRing. -/
structure CommandRing where
  allocId : Nat
  physBase : Nat
  trbs : List Trb
  enqueue : Nat
  cycle : Bool
  events : EventRing
deriving DecidableEq, Repr

/-- Modelled from the spec: next_cmd returns the Trb slot at the current
enqueue index for the caller to populate; the enqueue index advances,
wrapping and toggling the producer cycle bit at the ring boundary. -/
def CommandRing.next_cmd (r : CommandRing) : CommandRing × Nat :=
  let wrap := r.enqueue + 1 == r.trbs.length
  ({ r with enqueue := if wrap then 0 else r.enqueue + 1,
            cycle := if wrap then !r.cycle else r.cycle }, r.enqueue)

def listModify {α : Type} (f : α → α) : Nat → List α → List α
  | _, [] => []
  | 0, x :: xs => f x :: xs
  | n + 1, x :: xs => x :: listModify f n xs

def CommandRing.setTrb (r : CommandRing) (i : Nat) (t : Trb) : CommandRing :=
  { r with trbs := listModify (fun _ => t) i r.trbs }

def CommandRing.setReserved (r : CommandRing) (i : Nat) (b : Bool) : CommandRing :=
  { r with trbs := listModify (fun t => { t with reserved := b }) i r.trbs }

/-- Modelled from the spec: the command-ring control value is the ring's
physical base pointer together with its initial cycle bit. -/
def CommandRing.crcr (r : CommandRing) : Nat :=
  r.physBase ||| (if r.cycle then 1 else 0)

/-- Modelled from the spec: device.rs is absent.  DeviceList::new allocates
the per-slot device-context pointer table sized to max_slots. -/
def DeviceList.new (max_slots : Nat) (w : World) :
    Option (Option DeviceList × World × List Ev) :=
  match allocDma w with
  | none => none
  | some (none, w1, ev) => some (none, w1, ev)
  | some (some idph, w1, ev) =>
    some (some { allocId := idph.1, physBase := idph.2, len := max_slots,
                 entries := List.replicate max_slots 0 }, w1, ev)

/-- The DCBAAP value is the table's physical base. -/
def DeviceList.dcbaap (d : DeviceList) : Nat := d.physBase

/-- Modelled from the spec: command.rs is absent.  CommandRing::new
allocates the command Trb buffer, the event-ring Trb buffer and the
event-ring segment table; a failure drops what was already allocated. -/
def CommandRing.new (w : World) : Option (Option CommandRing × World × List Ev) :=
  match allocDma w with
  | none => none
  | some (none, w1, ev1) => some (none, w1, ev1)
  | some (some c, w1, ev1) =>
    match allocDma w1 with
    | none => none
    | some (none, w2, ev2) =>
      let fc := freeDma c.1 w2
      some (none, fc.1, ev1 ++ ev2 ++ fc.2)
    | some (some e, w2, ev2) =>
      match allocDma w2 with
      | none => none
      | some (none, w3, ev3) =>
        let fe := freeDma e.1 w3
        let fc := freeDma c.1 fe.1
        some (none, fc.1, ev1 ++ ev2 ++ ev3 ++ fe.2 ++ fc.2)
      | some (some st, w3, ev3) =>
        some (some { allocId := c.1, physBase := c.2,
                     trbs := List.replicate 256 trbZero,
                     enqueue := 0, cycle := true,
                     events := { allocId := e.1, physBase := e.2,
                                 steAllocId := st.1, stePhys := st.2,
                                 dequeue := 0, cycle := true } },
              w3, ev1 ++ ev2 ++ ev3)

/-- The driver state: register file, the mapped Port array length, the
device table and the command ring, together with the oracle world and the
action trace. -/
structure Machine where
  regs : RegFile
  numPorts : Nat
  devices : DeviceList
  cmd : CommandRing
  world : World
  trace : List Ev
deriving DecidableEq, Repr

/-- Xhci::init (mod.rs lines 104-142): write the enabled-slot count, the
DCBAAP, the CRCR, and interrupter 0's segment-table size, dequeue pointer
and segment-table base; set run/stop; poll the halted status bit until it
clears; ring doorbell 0.  The CRCR, ERDP and ERSTBA writes commit the ring
base addresses to the controller. -/
def Xhci.init (max_slots : Nat) (m : Machine) : Option Machine :=
  let r1 : RegFile := { m.regs with config := max_slots }
  let t1 := m.trace ++ [Ev.regWrite Reg.config max_slots]
  let r2 : RegFile := { r1 with dcbaap := m.devices.dcbaap }
  let t2 := t1 ++ [Ev.regWrite Reg.dcbaap m.devices.dcbaap]
  let r3 : RegFile := { r2 with crcr := m.cmd.crcr }
  let t3 := t2 ++ [Ev.regWrite Reg.crcr m.cmd.crcr]
  let r4 : RegFile := { r3 with erstsz := 1 }
  let t4 := t3 ++ [Ev.regWrite Reg.erstsz 1]
  let r5 : RegFile := { r4 with erdp := m.cmd.events.physBase }
  let t5 := t4 ++ [Ev.regWrite Reg.erdp m.cmd.events.physBase]
  let r6 : RegFile := { r5 with erstba := m.cmd.events.stePhys }
  let t6 := t5 ++ [Ev.regWrite Reg.erstba m.cmd.events.stePhys]
  let r7 : RegFile := { r6 with usb_cmd := r6.usb_cmd ||| 1 }
  let t7 := t6 ++ [Ev.regWrite Reg.usb_cmd (r6.usb_cmd ||| 1)]
  let comm := m.world.committed ++ [m.cmd.physBase, m.cmd.events.physBase, m.cmd.events.stePhys]
  match pollUntil (fun v => !readf v 1) m.world.statusVals with
  | none => none
  | some (reads, rest) =>
    some { m with
      regs := { r7 with db0 := 0 },
      world := { m.world with statusVals := rest, committed := comm },
      trace := t7 ++ reads.map Ev.statusRead ++ [Ev.doorbell 0 0] }

/-- Construction parameters: the read-only capability registers sampled by
Xhci::new, and the hardware state of the operational registers at entry. -/
structure NewParams where
  capLen : Nat
  hcsParams1 : Nat
  dbOffset : Nat
  rtsOffset : Nat
  regs0 : RegFile
deriving DecidableEq, Repr

/-- Maximum slot count: bits 0-7 of the slot/port parameter word
(mod.rs line 71). -/
def maxSlotsOf (hcs_params1 : Nat) : Nat := hcs_params1 &&& 255

/-- Maximum port count: bits 24-31 of the slot/port parameter word
(mod.rs line 72). -/
def maxPortsOf (hcs_params1 : Nat) : Nat := (hcs_params1 &&& 4278190080) >>> 24

/-- Outcome of Xhci::new: a running driver instance, or a construction
error together with the actions taken before the failure. -/
inductive NewRes
  | ok (m : Machine)
  | err (e : XhciError) (trace : List Ev)
deriving DecidableEq, Repr

/-- Xhci::new (mod.rs lines 34-102): reset handshake (wait ready, stop,
wait halted, reset, wait reset done), sample max_slots and max_ports from
the parameter word, map the port and doorbell arrays, allocate the
DeviceList and the CommandRing, then run init.  An allocation failure
propagates out before init runs. -/
def Xhci.new (p : NewParams) (w0 : World) : Option NewRes :=
  match pollUntil (fun v => !readf v (2 ^ 11)) w0.statusVals with
  | none => none
  | some (rds1, sv1) =>
    let t1 : List Ev := rds1.map Ev.statusRead
    let c1 := writefClear p.regs0.usb_cmd 1
    let r1 : RegFile := { p.regs0 with usb_cmd := c1 }
    let t2 := t1 ++ [Ev.regWrite Reg.usb_cmd c1]
    match pollUntil (fun v => readf v 1) sv1 with
    | none => none
    | some (rds2, sv2) =>
      let t3 := t2 ++ rds2.map Ev.statusRead
      let c2 := r1.usb_cmd ||| 2
      let r2 : RegFile := { r1 with usb_cmd := c2 }
      let t4 := t3 ++ [Ev.regWrite Reg.usb_cmd c2]
      match pollUntil (fun v => !readf v 2) sv2 with
      | none => none
      | some (rds3, sv3) =>
        let t5 := t4 ++ rds3.map Ev.statusRead
        let max_slots := maxSlotsOf p.hcsParams1
        let max_ports := maxPortsOf p.hcsParams1
        let w1 : World := { w0 with statusVals := sv3 }
        match DeviceList.new max_slots w1 with
        | none => none
        | some (none, _, ev) => some (NewRes.err XhciError.allocFailure (t5 ++ ev))
        | some (some devices, w2, ev1) =>
          match CommandRing.new w2 with
          | none => none
          | some (none, w3f, ev2) =>
            let fd := freeDma devices.allocId w3f
            some (NewRes.err XhciError.allocFailure (t5 ++ ev1 ++ ev2 ++ fd.2))
          | some (some cmd, w3, ev2) =>
            let m0 : Machine := { regs := r2, numPorts := max_ports,
                                  devices := devices, cmd := cmd,
                                  world := w3, trace := t5 ++ ev1 ++ ev2 }
            match Xhci.init max_slots m0 with
            | none => none
            | some m1 => some (NewRes.ok m1)

/-- The `run` closure of probe (mod.rs lines 157-162): write target 0 to
doorbell 0, then poll the command-ring control register until the running
flag (bit 3) reads clear. -/
def runWait (m : Machine) : Option Machine :=
  let m1 : Machine := { m with regs := { m.regs with db0 := 0 },
                               trace := m.trace ++ [Ev.doorbell 0 0] }
  match pollUntil (fun v => !readf v 8) m1.world.crcrVals with
  | none => none
  | some (reads, rest) =>
    some { m1 with world := { m1.world with crcrVals := rest },
                   trace := m1.trace ++ reads.map Ev.crcrRead }

/-- Modelled from the spec: next_event returns the Trb at the event ring's
current dequeue index (written there by the controller, here the hwEvents
oracle); the consumer index and cycle state advance. -/
def nextEvent (m : Machine) (port which : Nat) : Option (Trb × Machine) :=
  match m.world.hwEvents with
  | [] => none
  | e :: rest =>
    let er := m.cmd.events
    let wrap := er.dequeue + 1 == 256
    let er2 : EventRing := { er with dequeue := if wrap then 0 else er.dequeue + 1,
                                     cycle := if wrap then !er.cycle else er.cycle }
    some (e, { m with cmd := { m.cmd with events := er2 },
                      world := { m.world with hwEvents := rest },
                      trace := m.trace ++ [Ev.eventRead port which e.control] })

/-- Result of probe or of one probe iteration: ok, or an error with the
driver state at the point of failure. -/
inductive StepRes
  | ok (m : Machine)
  | err (e : XhciError) (m : Machine)
deriving DecidableEq, Repr

/-- One iteration of the probe loop for port index `i` with port status
word `s` (mod.rs lines 145-217).  A connected port (connect-status flag,
modelled from the spec as status bit 0 since port.rs is absent) gets an
Enable Slot command, its completion read, a 256-entry transfer ring and an
input context allocated, and an Address Device command referencing the
completion's slot id; the two local Dma buffers are dropped when the
iteration ends, and also on the early error return. -/
def probeStep (i s : Nat) (m : Machine) : Option StepRes :=
  let m0 : Machine := { m with trace := m.trace ++ [Ev.portRead i s] }
  if readf s 1 then
    let rc := m0.cmd.next_cmd
    let m1 : Machine := { m0 with
      cmd := CommandRing.setTrb rc.1 rc.2 (Trb.enable_slot 0 true),
      trace := m0.trace ++ [Ev.fillCmd i CmdKind.enableSlot] }
    match runWait m1 with
    | none => none
    | some m2 =>
      let m3 : Machine := { m2 with cmd := CommandRing.setReserved m2.cmd rc.2 false }
      match nextEvent m3 i 0 with
      | none => none
      | some (e1, m4) =>
        let slot := (e1.control >>> 24) % 256
        match allocDma m4.world with
        | none => none
        | some (none, w5, ev5) =>
          some (StepRes.err XhciError.allocFailure
            { m4 with world := w5, trace := m4.trace ++ ev5 })
        | some (some idph1, w5, ev5) =>
          let m5 : Machine := { m4 with world := w5, trace := m4.trace ++ ev5 }
          match allocDma m5.world with
          | none => none
          | some (none, w6, ev6) =>
            let m6 : Machine := { m5 with world := w6, trace := m5.trace ++ ev6 }
            let f := freeDma idph1.1 m6.world
            some (StepRes.err XhciError.allocFailure
              { m6 with world := f.1, trace := m6.trace ++ f.2 })
          | some (some idph2, w6, ev6) =>
            let m6 : Machine := { m5 with world := w6, trace := m5.trace ++ ev6 }
            let m6i : Machine := { m6 with
              trace := m6.trace ++ [Ev.inputWrite i (inputCtx i idph1.2)] }
            let rc2 := m6i.cmd.next_cmd
            let m7 : Machine := { m6i with
              cmd := CommandRing.setTrb rc2.1 rc2.2 (Trb.address_device slot idph2.2 true),
              world := { m6i.world with committed := m6i.world.committed ++ [idph1.2] },
              trace := m6i.trace ++ [Ev.fillCmd i (CmdKind.addressDevice slot idph2.2)] }
            match runWait m7 with
            | none => none
            | some m8 =>
              let m9 : Machine := { m8 with cmd := CommandRing.setReserved m8.cmd rc2.2 false }
              match nextEvent m9 i 1 with
              | none => none
              | some (e2, m10) =>
                let _address := (e2.control >>> 24) % 256
                let f2 := freeDma idph2.1 m10.world
                let m11 : Machine := { m10 with world := f2.1, trace := m10.trace ++ f2.2 }
                let f1 := freeDma idph1.1 m11.world
                let m12 : Machine := { m11 with world := f1.1, trace := m11.trace ++ f1.2 }
                some (StepRes.ok m12)
  else
    some (StepRes.ok m0)

/-- The probe loop over the remaining port statuses, `i` being the index
of the first of them. -/
def probeGo (i : Nat) (statuses : List Nat) (m : Machine) : Option StepRes :=
  match statuses with
  | [] => some (StepRes.ok m)
  | s :: rest =>
    match probeStep i s m with
    | none => none
    | some (StepRes.err e m1) => some (StepRes.err e m1)
    | some (StepRes.ok m1) => probeGo (i + 1) rest m1

/-- Xhci::probe (mod.rs lines 144-221): iterate over the mapped ports.
The port-status oracle must cover exactly the mapped Port array. -/
def Xhci.probe (m : Machine) : Option StepRes :=
  if m.world.portStatus.length == m.numPorts then probeGo 0 m.world.portStatus m
  else none

/-! Trace predicates used by the theorems. -/

/-- The probe port index an event is attributed to, if any. -/
def tagOf : Ev → Option Nat
  | Ev.portRead p _ => some p
  | Ev.fillCmd p _ => some p
  | Ev.eventRead p _ _ => some p
  | Ev.inputWrite p _ => some p
  | _ => none

/-- The event is an Enable Slot command fill for port `p`. -/
def isEnableFill (p : Nat) : Ev → Bool
  | Ev.fillCmd q CmdKind.enableSlot => q == p
  | _ => false

/-- The event is an Address Device command fill for port `p`. -/
def isAddrFill (p : Nat) : Ev → Bool
  | Ev.fillCmd q (CmdKind.addressDevice _ _) => q == p
  | _ => false

/-- The event is any command fill. -/
def isAnyFill : Ev → Bool
  | Ev.fillCmd _ _ => true
  | _ => false

/-- The event carries a port attribution different from `p`. -/
def strayTag (p : Nat) (ev : Ev) : Bool :=
  match tagOf ev with
  | some q => !(q == p)
  | none => false

/-- Number of Enable Slot commands filled for port `p`. -/
def countEnable (p : Nat) (t : List Ev) : Nat := t.countP (isEnableFill p)

/-- Number of Address Device commands filled for port `p`. -/
def countAddress (p : Nat) (t : List Ev) : Nat := t.countP (isAddrFill p)

/-- The slot ids referenced by Address Device commands filled for port
`p`, in order. -/
def addrSlotsFor (p : Nat) (t : List Ev) : List Nat :=
  t.filterMap (fun ev =>
    match ev with
    | Ev.fillCmd q (CmdKind.addressDevice sl _) => if q == p then some sl else none
    | _ => none)

/-- Scanner modes for the command-signaling protocol check. -/
inductive WsMode
  | scan
  | afterFill
  | polling
  | awaitEvent
deriving DecidableEq, Repr

/-- Checks the command-signaling discipline over a trace: every command
fill is immediately followed by a write of target 0 to doorbell 0, then
command-ring control reads that keep the running flag (bit 3) set until a
final read with it clear, and then the next event is read before any
further command is filled or doorbell rung. -/
def wellSignaled : WsMode → List Ev → Bool
  | WsMode.scan, [] => true
  | WsMode.scan, Ev.fillCmd _ _ :: rest => wellSignaled WsMode.afterFill rest
  | WsMode.scan, _ :: rest => wellSignaled WsMode.scan rest
  | WsMode.afterFill, Ev.doorbell 0 0 :: rest => wellSignaled WsMode.polling rest
  | WsMode.afterFill, _ => false
  | WsMode.polling, Ev.crcrRead v :: rest =>
    if readf v 8 then wellSignaled WsMode.polling rest
    else wellSignaled WsMode.awaitEvent rest
  | WsMode.polling, _ => false
  | WsMode.awaitEvent, Ev.eventRead _ _ _ :: rest => wellSignaled WsMode.scan rest
  | WsMode.awaitEvent, Ev.fillCmd _ _ :: _ => false
  | WsMode.awaitEvent, Ev.doorbell _ _ :: _ => false
  | WsMode.awaitEvent, _ :: rest => wellSignaled WsMode.awaitEvent rest
  | WsMode.awaitEvent, [] => false

/-- A sequence of command-ring control poll reads: the running flag stays
set on every read except the last, which reads it clear. -/
def pollOk (reads : List Nat) : Prop :=
  ∃ front last, reads = front ++ [last] ∧
    (∀ v ∈ front, readf v 8 = true) ∧ readf last 8 = false

/-- The trace of one connected-port probe iteration that ran to
completion: port read, Enable Slot fill, doorbell and drain poll,
completion read, the two local allocations, input-context build, Address
Device fill referencing the slot id from the first completion's control
word, doorbell and drain poll, completion read, and the two frees. -/
def stepTrace (i s : Nat) (r1 r2 : List Nat) (e1 e2 : Trb)
    (id1 ph1 id2 ph2 : Nat) : List Ev :=
  [Ev.portRead i s, Ev.fillCmd i CmdKind.enableSlot, Ev.doorbell 0 0]
  ++ r1.map Ev.crcrRead
  ++ [Ev.eventRead i 0 e1.control,
      Ev.allocEv id1 ph1, Ev.allocEv id2 ph2,
      Ev.inputWrite i (inputCtx i ph1),
      Ev.fillCmd i (CmdKind.addressDevice ((e1.control >>> 24) % 256) ph2),
      Ev.doorbell 0 0]
  ++ r2.map Ev.crcrRead
  ++ [Ev.eventRead i 1 e2.control, Ev.freeEv id2, Ev.freeEv id1]

/-- A convenient total wrapper extracting init's result machine. -/
def initOr (ms : Nat) (m : Machine) : Machine :=
  match Xhci.init ms m with
  | some m9 => m9
  | none => m

/-- A small concrete machine used to instantiate hypotheses of the
universally quantified claims. -/
def cW : World :=
  { statusVals := [0, 0], crcrVals := [8, 0, 0], portStatus := [1],
    hwEvents := [{ param0 := 0, param1 := 0, param2 := 1 <<< 24,
                   control := 5 <<< 24, reserved := true },
                 { param0 := 0, param1 := 0, param2 := 1 <<< 24,
                   control := 2 <<< 24, reserved := true }],
    allocResults := [some 24576, some 28672],
    nextAllocId := 4, live := [(0, 4096), (1, 8192), (2, 12288), (3, 16384)],
    committed := [8192, 12288, 16384] }

def cRegs : RegFile :=
  { usb_cmd := 5, config := 0, dcbaap := 0, crcr := 0, erstsz := 0,
    erdp := 0, erstba := 0, db0 := 7 }

def cM : Machine :=
  { regs := cRegs, numPorts := 1,
    devices := { allocId := 0, physBase := 4096, len := 4, entries := [0, 0, 0, 0] },
    cmd := { allocId := 1, physBase := 8192,
             trbs := [trbZero, trbZero, trbZero, trbZero],
             enqueue := 0, cycle := true,
             events := { allocId := 2, physBase := 12288, steAllocId := 3,
                         stePhys := 16384, dequeue := 0, cycle := true } },
    world := cW, trace := [] }


/-- The machine probe leaves behind on success, used to instantiate
hypotheses at concrete inputs. -/
def probeOkOr (m : Machine) : Machine :=
  match Xhci.probe m with
  | some (StepRes.ok x) => x
  | _ => m

/-- The machine probe leaves behind on failure. -/
def probeErrOr (m : Machine) : Machine :=
  match Xhci.probe m with
  | some (StepRes.err _ x) => x
  | _ => m

/-- cM with a failing allocator: the transfer-ring allocation for the
connected port fails. -/
def cF : Machine :=
  { cM with world := { cW with allocResults := [none] } }


/-- Allocation-related trace events (allocations, failures, frees). -/
def isAllocCat : Ev → Bool
  | Ev.allocEv _ _ => true
  | Ev.allocFailEv => true
  | Ev.freeEv _ => true
  | _ => false


/-- Run construction and then probe, as main does. -/
def fullProbe (p : NewParams) (w : World) : Option StepRes :=
  match Xhci.new p w with
  | some (NewRes.ok m) => Xhci.probe m
  | _ => none

/-- On a successful construction-and-probe run: how many Address Device
commands were filled for port 0, and which slot ids they referenced. -/
def probeOutcome (p : NewParams) (w : World) : Option (Nat × List Nat) :=
  match fullProbe p w with
  | some (StepRes.ok m) => some (countAddress 0 m.trace, addrSlotsFor 0 m.trace)
  | _ => none

/-- On a successful construction-and-probe run: the committed ring base
addresses whose backing allocation is no longer live. -/
def committedNotLive (p : NewParams) (w : World) : Option (List Nat) :=
  match fullProbe p w with
  | some (StepRes.ok m) =>
    some (m.world.committed.filter
      (fun ph => decide (ph ∉ m.world.live.map Prod.snd)))
  | _ => none

/-- The mapped Port array length produced by construction. -/
def newNumPorts (p : NewParams) (w : World) : Option Nat :=
  match Xhci.new p w with
  | some (NewRes.ok m) => some m.numPorts
  | _ => none

/-- The DeviceList size produced by construction. -/
def newDevLen (p : NewParams) (w : World) : Option Nat :=
  match Xhci.new p w with
  | some (NewRes.ok m) => some m.devices.len
  | _ => none

/-- Total wrapper for construction results, for concrete instantiation. -/
def newResOr (p : NewParams) (w : World) : NewRes :=
  match Xhci.new p w with
  | some r => r
  | none => NewRes.err XhciError.allocFailure []

/-- Construction parameters for the concrete runs: one port, four slots. -/
def c1p : NewParams :=
  { capLen := 32, hcsParams1 := 0x01000004, dbOffset := 128,
    rtsOffset := 8192, regs0 := cRegs }

/-- An Enable Slot completion event with a non-success completion code
(4 in bits 24-31 of the status word) carrying slot id 5. -/
def c1e1 : Trb :=
  { param0 := 0, param1 := 0, param2 := 4 <<< 24, control := 5 <<< 24,
    reserved := true }

/-- An Address Device completion event with completion code Success. -/
def c1e2 : Trb :=
  { param0 := 0, param1 := 0, param2 := 1 <<< 24, control := 2 <<< 24,
    reserved := true }

/-- Oracle world for the concrete construction-and-probe runs. -/
def c1w : World :=
  { statusVals := [0, 1, 0, 0], crcrVals := [0, 0], portStatus := [1],
    hwEvents := [c1e1, c1e2],
    allocResults := [some 4096, some 8192, some 12288, some 16384,
                     some 24576, some 28672],
    nextAllocId := 0, live := [], committed := [] }

/-- Construction parameters with the parameter word of the C5 scenario. -/
def c5p : NewParams :=
  { capLen := 32, hcsParams1 := 0x00010004, dbOffset := 128,
    rtsOffset := 8192, regs0 := cRegs }

/-- Oracle world for the C5 construction run. -/
def c5w : World :=
  { statusVals := [0, 1, 0, 0], crcrVals := [], portStatus := [],
    hwEvents := [],
    allocResults := [some 4096, some 8192, some 12288, some 16384],
    nextAllocId := 0, live := [], committed := [] }

/-- Construction parameters for the failing-allocator run. -/
def c6p : NewParams := c1p

/-- Oracle world whose very first allocation (the DeviceList) fails. -/
def c6w : World :=
  { statusVals := [0, 1, 0], crcrVals := [], portStatus := [],
    hwEvents := [], allocResults := [none],
    nextAllocId := 0, live := [], committed := [] }

/-! Characterization lemmas for the primitive operations. -/

theorem pollUntil_spec (p : Nat → Bool) (l reads rest : List Nat)
    (h : pollUntil p l = some (reads, rest)) :
    ∃ front final, reads = front ++ [final] ∧ (∀ v ∈ front, p v = false) ∧
      p final = true ∧ l = reads ++ rest := by
  induction l generalizing reads with
  | nil => simp [pollUntil] at h
  | cons v tl ih =>
    unfold pollUntil at h
    by_cases hv : p v = true
    · rw [if_pos hv] at h
      obtain ⟨h1, h2⟩ := Prod.mk.injEq .. ▸ Option.some.inj h
      subst h1; subst h2
      exact ⟨[], v, rfl, by simp, hv, rfl⟩
    · rw [if_neg hv] at h
      cases htl : pollUntil p tl with
      | none => rw [htl] at h; exact absurd h (by simp)
      | some pr =>
        obtain ⟨reads', rest'⟩ := pr
        rw [htl] at h
        obtain ⟨h1, h2⟩ := Prod.mk.injEq .. ▸ Option.some.inj h
        subst h1; subst h2
        obtain ⟨front, final, hr, hf, hl, hsplit⟩ := ih reads' htl
        refine ⟨v :: front, final, by simp [hr], ?_, hl, by simp [hsplit]⟩
        intro x hx
        rcases List.mem_cons.mp hx with hx | hx
        · subst hx; exact Bool.not_eq_true _ ▸ hv
        · exact hf x hx

theorem runWait_spec (m m2 : Machine) (h : runWait m = some m2) :
    ∃ reads rest,
      pollUntil (fun v => !readf v 8) m.world.crcrVals = some (reads, rest) ∧
      m2 = { m with regs := { m.regs with db0 := 0 },
                    world := { m.world with crcrVals := rest },
                    trace := (m.trace ++ [Ev.doorbell 0 0]) ++ reads.map Ev.crcrRead } := by
  unfold runWait at h
  dsimp only at h
  cases hp : pollUntil (fun v => !readf v 8) m.world.crcrVals with
  | none => rw [hp] at h; exact absurd h (by simp)
  | some pr =>
    obtain ⟨reads, rest⟩ := pr
    rw [hp] at h
    exact ⟨reads, rest, rfl, (Option.some.inj h).symm⟩

theorem nextEvent_spec (m : Machine) (port which : Nat) (e : Trb) (m2 : Machine)
    (h : nextEvent m port which = some (e, m2)) :
    ∃ rest, m.world.hwEvents = e :: rest ∧
      m2 = { m with
        cmd := { m.cmd with events :=
          { m.cmd.events with
              dequeue := if m.cmd.events.dequeue + 1 == 256 then 0 else m.cmd.events.dequeue + 1,
              cycle := if m.cmd.events.dequeue + 1 == 256 then !m.cmd.events.cycle else m.cmd.events.cycle } },
        world := { m.world with hwEvents := rest },
        trace := m.trace ++ [Ev.eventRead port which e.control] } := by
  unfold nextEvent at h
  cases hev : m.world.hwEvents with
  | nil => rw [hev] at h; exact absurd h (by simp)
  | cons e0 rest =>
    rw [hev] at h
    obtain ⟨h1, h2⟩ := Prod.mk.injEq .. ▸ Option.some.inj h
    subst h1
    refine ⟨rest, rfl, ?_⟩
    rw [← h2]

theorem allocDma_ok (w : World) (idph : Nat × Nat) (w' : World) (ev : List Ev)
    (h : allocDma w = some (some idph, w', ev)) :
    ∃ rest, w.allocResults = some idph.2 :: rest ∧ idph.1 = w.nextAllocId ∧
      w' = { w with allocResults := rest, nextAllocId := w.nextAllocId + 1,
                    live := (w.nextAllocId, idph.2) :: w.live } ∧
      ev = [Ev.allocEv w.nextAllocId idph.2] := by
  obtain ⟨id1, ph1⟩ := idph
  unfold allocDma at h
  cases har : w.allocResults with
  | nil => rw [har] at h; exact absurd h (by simp)
  | cons r rest =>
    rw [har] at h
    cases r with
    | none => simp at h
    | some phys =>
      simp only [Option.some.injEq, Prod.mk.injEq] at h
      obtain ⟨⟨hid, hph⟩, hw, hev⟩ := h
      subst hid; subst hph; subst hw; subst hev
      exact ⟨rest, rfl, rfl, rfl, rfl⟩

theorem allocDma_fail (w : World) (w' : World) (ev : List Ev)
    (h : allocDma w = some (none, w', ev)) :
    ∃ rest, w.allocResults = none :: rest ∧
      w' = { w with allocResults := rest } ∧ ev = [Ev.allocFailEv] := by
  unfold allocDma at h
  cases har : w.allocResults with
  | nil => rw [har] at h; exact absurd h (by simp)
  | cons r rest =>
    rw [har] at h
    cases r with
    | some phys => simp at h
    | none =>
      simp only [Option.some.injEq, Prod.mk.injEq] at h
      obtain ⟨_, hw, hev⟩ := h
      subst hw; subst hev
      exact ⟨rest, rfl, rfl, rfl⟩

theorem pollOk_of_pollUntil (l r rest : List Nat)
    (h : pollUntil (fun v => !readf v 8) l = some (r, rest)) : pollOk r := by
  obtain ⟨front, final, hr, hf, hfin, _⟩ := pollUntil_spec _ _ _ _ h
  refine ⟨front, final, hr, ?_, ?_⟩
  · intro v hv
    have := hf v hv
    simpa using this
  · simpa using hfin

/-! Characterization of one probe iteration. -/

theorem probeStep_not_connected (i s : Nat) (m : Machine) (hc : readf s 1 = false) :
    probeStep i s m = some (StepRes.ok { m with trace := m.trace ++ [Ev.portRead i s] }) := by
  simp [probeStep, hc]

theorem probeStep_connected_ok (i s : Nat) (m m' : Machine)
    (hc : readf s 1 = true) (h : probeStep i s m = some (StepRes.ok m')) :
    ∃ r1 r2 e1 e2 id1 ph1 id2 ph2,
      pollOk r1 ∧ pollOk r2 ∧
      m'.trace = m.trace ++ stepTrace i s r1 r2 e1 e2 id1 ph1 id2 ph2 ∧
      m'.devices = m.devices ∧
      m'.numPorts = m.numPorts ∧
      m'.regs = { m.regs with db0 := 0 } ∧
      m'.world.portStatus = m.world.portStatus ∧
      m'.world.committed = m.world.committed ++ [ph1] ∧
      m'.cmd.allocId = m.cmd.allocId ∧
      m'.cmd.physBase = m.cmd.physBase ∧
      m'.cmd.events.allocId = m.cmd.events.allocId ∧
      m'.cmd.events.physBase = m.cmd.events.physBase ∧
      m'.cmd.events.steAllocId = m.cmd.events.steAllocId ∧
      m'.cmd.events.stePhys = m.cmd.events.stePhys := by
  unfold probeStep at h
  dsimp only at h
  split at h
  · split at h
    · exact Option.noConfusion h
    · rename_i m2 hrw
      obtain ⟨r1, rest1, hp1, hm2⟩ := runWait_spec _ _ hrw
      subst hm2
      split at h
      · exact Option.noConfusion h
      · rename_i e1 m4 hne
        obtain ⟨evrest1, hhw1, hm4⟩ := nextEvent_spec _ _ _ _ _ hne
        subst hm4
        split at h
        · exact Option.noConfusion h
        · simp at h
        · rename_i idph1 w5 ev5 hal1
          obtain ⟨ar1, hares1, hid1, hw5, hev5⟩ := allocDma_ok _ _ _ _ hal1
          subst hw5; subst hev5
          split at h
          · exact Option.noConfusion h
          · simp at h
          · rename_i idph2 w6 ev6 hal2
            obtain ⟨ar2, hares2, hid2, hw6, hev6⟩ := allocDma_ok _ _ _ _ hal2
            subst hw6; subst hev6
            split at h
            · exact Option.noConfusion h
            · rename_i m8 hrw2
              obtain ⟨r2, rest2, hp2, hm8⟩ := runWait_spec _ _ hrw2
              subst hm8
              split at h
              · exact Option.noConfusion h
              · rename_i e2 m10 hne2
                obtain ⟨evrest2, hhw2, hm10⟩ := nextEvent_spec _ _ _ _ _ hne2
                subst hm10
                have hfin := (StepRes.ok.inj (Option.some.inj h)).symm
                subst hfin
                refine ⟨r1, r2, e1, e2, idph1.1, idph1.2, idph2.1, idph2.2,
                  pollOk_of_pollUntil _ _ _ hp1, pollOk_of_pollUntil _ _ _ hp2,
                  ?_, ?_, ?_, ?_, ?_, ?_, ?_, ?_, ?_, ?_, ?_, ?_⟩ <;>
                  simp [stepTrace, freeDma, CommandRing.setTrb, CommandRing.setReserved,
                        CommandRing.next_cmd, List.append_assoc, hid1, hid2]
  · rename_i hcf
    exact absurd hc hcf

theorem probeStep_err (i s : Nat) (e : XhciError) (m m1 : Machine)
    (h : probeStep i s m = some (StepRes.err e m1)) :
    e = XhciError.allocFailure ∧ readf s 1 = true ∧
    ∃ δ, m1.trace = m.trace ++ δ ∧
      δ.countP (isAddrFill i) = 0 ∧
      δ.countP (strayTag i) = 0 := by
  unfold probeStep at h
  dsimp only at h
  split at h
  · rename_i hct
    split at h
    · exact Option.noConfusion h
    · rename_i m2 hrw
      obtain ⟨r1, rest1, hp1, hm2⟩ := runWait_spec _ _ hrw
      subst hm2
      split at h
      · exact Option.noConfusion h
      · rename_i e1 m4 hne
        obtain ⟨evrest1, hhw1, hm4⟩ := nextEvent_spec _ _ _ _ _ hne
        subst hm4
        split at h
        · exact Option.noConfusion h
        · rename_i w5 ev5 hal1
          obtain ⟨ar1, hares1, hw5, hev5⟩ := allocDma_fail _ _ _ hal1
          subst hw5; subst hev5
          injection h with h9
          injection h9 with hea heb
          subst hea; subst heb
          refine ⟨rfl, hct, [Ev.portRead i s, Ev.fillCmd i CmdKind.enableSlot,
            Ev.doorbell 0 0] ++ r1.map Ev.crcrRead ++
            [Ev.eventRead i 0 e1.control, Ev.allocFailEv], ?_, ?_, ?_⟩
          · simp [List.append_assoc]
          · rw [List.countP_eq_zero]
            intro ev hev
            simp only [List.mem_append, List.mem_cons, List.mem_map,
              List.mem_singleton, List.not_mem_nil, or_false] at hev
            rcases hev with ((h1 | h1 | h1) | ⟨v, _, h1⟩) | (h1 | h1) <;>
              subst h1 <;> simp [isAddrFill]
          · rw [List.countP_eq_zero]
            intro ev hev
            simp only [List.mem_append, List.mem_cons, List.mem_map,
              List.mem_singleton, List.not_mem_nil, or_false] at hev
            rcases hev with ((h1 | h1 | h1) | ⟨v, _, h1⟩) | (h1 | h1) <;>
              subst h1 <;> simp [strayTag, tagOf]
        · rename_i idph1 w5 ev5 hal1
          obtain ⟨ar1, hares1, hid1, hw5, hev5⟩ := allocDma_ok _ _ _ _ hal1
          subst hw5; subst hev5
          split at h
          · exact Option.noConfusion h
          · rename_i w6 ev6 hal2
            obtain ⟨ar2, hares2, hw6, hev6⟩ := allocDma_fail _ _ _ hal2
            subst hw6; subst hev6
            injection h with h9
            injection h9 with hea heb
            subst hea; subst heb
            refine ⟨rfl, hct, [Ev.portRead i s, Ev.fillCmd i CmdKind.enableSlot,
              Ev.doorbell 0 0] ++ r1.map Ev.crcrRead ++
              [Ev.eventRead i 0 e1.control, Ev.allocEv idph1.1 idph1.2,
               Ev.allocFailEv, Ev.freeEv idph1.1], ?_, ?_, ?_⟩
            · simp [freeDma, List.append_assoc, hid1]
            · rw [List.countP_eq_zero]
              intro ev hev
              simp only [List.mem_append, List.mem_cons, List.mem_map,
                List.mem_singleton, List.not_mem_nil, or_false] at hev
              rcases hev with ((h1 | h1 | h1) | ⟨v, _, h1⟩) | (h1 | h1 | h1 | h1) <;>
                subst h1 <;> simp [isAddrFill]
            · rw [List.countP_eq_zero]
              intro ev hev
              simp only [List.mem_append, List.mem_cons, List.mem_map,
                List.mem_singleton, List.not_mem_nil, or_false] at hev
              rcases hev with ((h1 | h1 | h1) | ⟨v, _, h1⟩) | (h1 | h1 | h1 | h1) <;>
                subst h1 <;> simp [strayTag, tagOf]
          · rename_i idph2 w6 ev6 hal2
            obtain ⟨ar2, hares2, hid2, hw6, hev6⟩ := allocDma_ok _ _ _ _ hal2
            subst hw6; subst hev6
            split at h
            · exact Option.noConfusion h
            · rename_i m8 hrw2
              obtain ⟨r2, rest2, hp2, hm8⟩ := runWait_spec _ _ hrw2
              subst hm8
              split at h
              · exact Option.noConfusion h
              · rename_i e2 m10 hne2
                obtain ⟨evrest2, hhw2, hm10⟩ := nextEvent_spec _ _ _ _ _ hne2
                subst hm10
                simp at h
  · simp only [Option.some.injEq] at h
    exact absurd h (by simp)

/-! Helper lemmas about the per-iteration trace block. -/

theorem isEnableFill_tag (p : Nat) (ev : Ev) (h : isEnableFill p ev = true) :
    tagOf ev = some p := by
  cases ev with
  | fillCmd q c =>
    cases c with
    | enableSlot => simp only [isEnableFill, beq_iff_eq] at h; simp [tagOf, h]
    | addressDevice sl ptr => simp [isEnableFill] at h
  | _ => simp [isEnableFill] at h

theorem isAddrFill_tag (p : Nat) (ev : Ev) (h : isAddrFill p ev = true) :
    tagOf ev = some p := by
  cases ev with
  | fillCmd q c =>
    cases c with
    | enableSlot => simp [isAddrFill] at h
    | addressDevice sl ptr => simp only [isAddrFill, beq_iff_eq] at h; simp [tagOf, h]
  | _ => simp [isAddrFill] at h

theorem countP_zero_of_tags {l : List Ev} {pred : Ev → Bool} {p : Nat}
    (hpred : ∀ ev, pred ev = true → tagOf ev = some p)
    (hb : ∀ ev ∈ l, tagOf ev ≠ some p) : l.countP pred = 0 := by
  rw [List.countP_eq_zero]
  intro a ha hpa
  exact hb a ha (hpred a hpa)

theorem countP_map_crcr_zero (pred : Ev → Bool) (hp : ∀ v, pred (Ev.crcrRead v) = false)
    (l : List Nat) : (l.map Ev.crcrRead).countP pred = 0 := by
  induction l with
  | nil => rfl
  | cons v tl ih => simp [List.countP_cons, hp, ih]

theorem mem_stepTrace (ev : Ev) (i s : Nat) (r1 r2 : List Nat) (e1 e2 : Trb)
    (id1 ph1 id2 ph2 : Nat) :
    ev ∈ stepTrace i s r1 r2 e1 e2 id1 ph1 id2 ph2 ↔
      ev = Ev.portRead i s ∨ ev = Ev.fillCmd i CmdKind.enableSlot ∨
      ev = Ev.doorbell 0 0 ∨ (∃ v ∈ r1, Ev.crcrRead v = ev) ∨
      ev = Ev.eventRead i 0 e1.control ∨ ev = Ev.allocEv id1 ph1 ∨
      ev = Ev.allocEv id2 ph2 ∨ ev = Ev.inputWrite i (inputCtx i ph1) ∨
      ev = Ev.fillCmd i (CmdKind.addressDevice ((e1.control >>> 24) % 256) ph2) ∨
      (∃ v ∈ r2, Ev.crcrRead v = ev) ∨
      ev = Ev.eventRead i 1 e2.control ∨ ev = Ev.freeEv id2 ∨ ev = Ev.freeEv id1 := by
  simp only [stepTrace, List.mem_append, List.mem_cons, List.mem_map,
    List.not_mem_nil, or_false]
  aesop

theorem stepTrace_tags (i s : Nat) (r1 r2 : List Nat) (e1 e2 : Trb)
    (id1 ph1 id2 ph2 : Nat) :
    ∀ ev ∈ stepTrace i s r1 r2 e1 e2 id1 ph1 id2 ph2,
      ∀ q, tagOf ev = some q → q = i := by
  intro ev hev q hq
  rw [mem_stepTrace] at hev
  rcases hev with h | h | h | ⟨v, _, h⟩ | h | h | h | h | h | ⟨v, _, h⟩ | h | h | h <;>
    subst h <;> simp [tagOf] at hq <;> omega

theorem countP_crcr_zero (pred : Ev → Bool) (hp : ∀ v, pred (Ev.crcrRead v) = false)
    (l : List Nat) : (l.map Ev.crcrRead).countP pred = 0 := by
  rw [List.countP_eq_zero]
  intro a ha
  obtain ⟨v, _, hv⟩ := List.mem_map.mp ha
  subst hv
  simp [hp]

theorem stepTrace_countEnable (i s : Nat) (r1 r2 : List Nat) (e1 e2 : Trb)
    (id1 ph1 id2 ph2 : Nat) (p : Nat) :
    (stepTrace i s r1 r2 e1 e2 id1 ph1 id2 ph2).countP (isEnableFill p) =
      if p = i then 1 else 0 := by
  have h1 := countP_crcr_zero (isEnableFill p) (fun v => rfl) r1
  have h2 := countP_crcr_zero (isEnableFill p) (fun v => rfl) r2
  simp only [stepTrace, List.countP_append, List.countP_cons, List.countP_nil]
  rw [h1, h2]
  by_cases hpi : p = i
  · subst hpi
    simp [isEnableFill]
  · have hip : ¬i = p := fun h => hpi h.symm
    simp [isEnableFill, hip, hpi]

theorem stepTrace_countAddress (i s : Nat) (r1 r2 : List Nat) (e1 e2 : Trb)
    (id1 ph1 id2 ph2 : Nat) (p : Nat) :
    (stepTrace i s r1 r2 e1 e2 id1 ph1 id2 ph2).countP (isAddrFill p) =
      if p = i then 1 else 0 := by
  have h1 := countP_crcr_zero (isAddrFill p) (fun v => rfl) r1
  have h2 := countP_crcr_zero (isAddrFill p) (fun v => rfl) r2
  simp only [stepTrace, List.countP_append, List.countP_cons, List.countP_nil]
  rw [h1, h2]
  by_cases hpi : p = i
  · subst hpi
    simp [isAddrFill]
  · have hip : ¬i = p := fun h => hpi h.symm
    simp [isAddrFill, hip, hpi]

theorem filterMap_crcr_nil {β : Type} (f : Ev → Option β)
    (hf : ∀ v, f (Ev.crcrRead v) = none) (l : List Nat) :
    (l.map Ev.crcrRead).filterMap f = [] := by
  induction l with
  | nil => rfl
  | cons v tl ih => simp only [List.map_cons, List.filterMap_cons, hf, ih]

theorem stepTrace_addrSlots (i s : Nat) (r1 r2 : List Nat) (e1 e2 : Trb)
    (id1 ph1 id2 ph2 : Nat) (p : Nat) :
    addrSlotsFor p (stepTrace i s r1 r2 e1 e2 id1 ph1 id2 ph2) =
      if p = i then [(e1.control >>> 24) % 256] else [] := by
  have h1 := filterMap_crcr_nil (fun ev =>
    match ev with
    | Ev.fillCmd q (CmdKind.addressDevice sl _) => if q == p then some sl else none
    | _ => none) (fun v => rfl) r1
  have h2 := filterMap_crcr_nil (fun ev =>
    match ev with
    | Ev.fillCmd q (CmdKind.addressDevice sl _) => if q == p then some sl else none
    | _ => none) (fun v => rfl) r2
  simp only [addrSlotsFor, stepTrace, List.filterMap_append, List.filterMap_cons,
    List.filterMap_nil]
  rw [h1, h2]
  by_cases hpi : p = i
  · subst hpi
    simp
  · have hip : ¬i = p := fun h => hpi h.symm
    simp [hip, hpi]

theorem stepTrace_eventRead0 (i s : Nat) (r1 r2 : List Nat) (e1 e2 : Trb)
    (id1 ph1 id2 ph2 p c : Nat)
    (h : Ev.eventRead p 0 c ∈ stepTrace i s r1 r2 e1 e2 id1 ph1 id2 ph2) :
    p = i ∧ c = e1.control := by
  rw [mem_stepTrace] at h
  rcases h with h | h | h | ⟨v, _, h⟩ | h | h | h | h | h | ⟨v, _, h⟩ | h | h | h <;>
    first
      | (injection h with h1 h2 h3; exact ⟨h1, h3⟩)
      | (injection h with h1 h2 h3; exact absurd h2 (by simp))
      | exact absurd h (by simp)

/-! Composition lemmas for the signaling checker. -/

theorem ws_polling_run (front : List Nat) (rest : List Ev)
    (hf : ∀ v ∈ front, readf v 8 = true) :
    wellSignaled WsMode.polling (front.map Ev.crcrRead ++ rest) =
      wellSignaled WsMode.polling rest := by
  induction front with
  | nil => rfl
  | cons v tl ih =>
    have hv : readf v 8 = true := hf v (by simp)
    simp only [List.map_cons, List.cons_append, wellSignaled, hv, if_true]
    exact ih (fun x hx => hf x (by simp [hx]))

theorem ws_poll_block (r : List Nat) (t : List Ev) (h : pollOk r) :
    wellSignaled WsMode.polling (r.map Ev.crcrRead ++ t) =
      wellSignaled WsMode.awaitEvent t := by
  obtain ⟨front, final, rfl, hf, hl⟩ := h
  rw [List.map_append, List.append_assoc, ws_polling_run front _ hf]
  simp [wellSignaled, hl]

theorem ws_scan_stepTrace (i s : Nat) (r1 r2 : List Nat) (e1 e2 : Trb)
    (id1 ph1 id2 ph2 : Nat) (t : List Ev) (h1 : pollOk r1) (h2 : pollOk r2) :
    wellSignaled WsMode.scan (stepTrace i s r1 r2 e1 e2 id1 ph1 id2 ph2 ++ t) =
      wellSignaled WsMode.scan t := by
  simp only [stepTrace, List.append_assoc, List.cons_append, List.nil_append]
  simp only [wellSignaled]
  rw [ws_poll_block _ _ h1]
  simp only [wellSignaled]
  rw [ws_poll_block _ _ h2]
  simp only [wellSignaled]

/-! Induction lemmas over the probe loop. -/

theorem probeGo_nil_ok (i : Nat) (m m' : Machine)
    (h : probeGo i [] m = some (StepRes.ok m')) : m' = m := by
  unfold probeGo at h
  exact (StepRes.ok.inj (Option.some.inj h)).symm

theorem probeGo_trace_tags : ∀ (l : List Nat) (i : Nat) (m m' : Machine),
    probeGo i l m = some (StepRes.ok m') →
    ∃ Δ, m'.trace = m.trace ++ Δ ∧
      ∀ ev ∈ Δ, ∀ q, tagOf ev = some q → i ≤ q ∧ q < i + l.length := by
  intro l
  induction l with
  | nil =>
    intro i m m' h
    obtain rfl := probeGo_nil_ok i m m' h
    exact ⟨[], by simp, by simp⟩
  | cons s rest ih =>
    intro i m m' h
    unfold probeGo at h
    cases hst : probeStep i s m with
    | none => rw [hst] at h; exact Option.noConfusion h
    | some r =>
      rw [hst] at h
      cases r with
      | err e0 m1 => exact absurd h (by simp)
      | ok m1 =>
        obtain ⟨Δr, hΔr, htagr⟩ := ih (i + 1) m1 m' h
        by_cases hc : readf s 1 = true
        · obtain ⟨r1, r2, e1, e2, id1, ph1, id2, ph2, hp1, hp2, htr, _⟩ :=
            probeStep_connected_ok i s m m1 hc hst
          refine ⟨stepTrace i s r1 r2 e1 e2 id1 ph1 id2 ph2 ++ Δr, ?_, ?_⟩
          · rw [hΔr, htr, List.append_assoc]
          · intro ev hev q hq
            rcases List.mem_append.mp hev with hev | hev
            · have hqi := stepTrace_tags i s r1 r2 e1 e2 id1 ph1 id2 ph2 ev hev q hq
              subst hqi
              simp [List.length_cons]
            · have := htagr ev hev q hq
              simp only [List.length_cons]
              omega
        · have hcf : readf s 1 = false := by
            cases hb : readf s 1
            · rfl
            · exact absurd hb hc
          have hnc := probeStep_not_connected i s m hcf
          rw [hnc] at hst
          have hm1 : m1 = { m with trace := m.trace ++ [Ev.portRead i s] } :=
            (StepRes.ok.inj (Option.some.inj hst)).symm
          subst hm1
          refine ⟨[Ev.portRead i s] ++ Δr, ?_, ?_⟩
          · rw [hΔr]
            simp
          · intro ev hev q hq
            rcases List.mem_append.mp hev with hev | hev
            · rw [List.mem_singleton] at hev
              subst hev
              simp [tagOf] at hq
              simp only [List.length_cons]
              omega
            · have := htagr ev hev q hq
              simp only [List.length_cons]
              omega

theorem probeGo_cons_ok (i s : Nat) (rest : List Nat) (m m' : Machine)
    (h : probeGo i (s :: rest) m = some (StepRes.ok m')) :
    ∃ m1, probeStep i s m = some (StepRes.ok m1) ∧
      probeGo (i + 1) rest m1 = some (StepRes.ok m') := by
  unfold probeGo at h
  cases hst : probeStep i s m with
  | none => rw [hst] at h; exact Option.noConfusion h
  | some r =>
    rw [hst] at h
    cases r with
    | err e0 m1 => exact absurd h (by simp)
    | ok m1 => exact ⟨m1, rfl, h⟩

theorem probeStep_ok_of_not_connected (i s : Nat) (m m1 : Machine)
    (hc : readf s 1 = false) (h : probeStep i s m = some (StepRes.ok m1)) :
    m1 = { m with trace := m.trace ++ [Ev.portRead i s] } := by
  rw [probeStep_not_connected i s m hc] at h
  exact (StepRes.ok.inj (Option.some.inj h)).symm

theorem countEnable_append (p : Nat) (a b : List Ev) :
    countEnable p (a ++ b) = countEnable p a + countEnable p b := by
  simp [countEnable, List.countP_append]

theorem countAddress_append (p : Nat) (a b : List Ev) :
    countAddress p (a ++ b) = countAddress p a + countAddress p b := by
  simp [countAddress, List.countP_append]

theorem addrSlots_append (p : Nat) (a b : List Ev) :
    addrSlotsFor p (a ++ b) = addrSlotsFor p a ++ addrSlotsFor p b := by
  simp [addrSlotsFor, List.filterMap_append]

theorem countEnable_zero_of_tags (p : Nat) (l : List Ev)
    (hb : ∀ ev ∈ l, ∀ q, tagOf ev = some q → q ≠ p) : countEnable p l = 0 := by
  refine countP_zero_of_tags (isEnableFill_tag p) ?_
  intro ev hev htag
  exact hb ev hev p htag rfl

theorem countAddress_zero_of_tags (p : Nat) (l : List Ev)
    (hb : ∀ ev ∈ l, ∀ q, tagOf ev = some q → q ≠ p) : countAddress p l = 0 := by
  refine countP_zero_of_tags (isAddrFill_tag p) ?_
  intro ev hev htag
  exact hb ev hev p htag rfl

theorem addrSlots_nil_of_tags (p : Nat) (l : List Ev)
    (hb : ∀ ev ∈ l, ∀ q, tagOf ev = some q → q ≠ p) : addrSlotsFor p l = [] := by
  rw [addrSlotsFor, List.filterMap_eq_nil_iff]
  intro ev hev
  cases ev with
  | fillCmd q c =>
    cases c with
    | enableSlot => rfl
    | addressDevice sl ptr =>
      have hq : q ≠ p := hb (Ev.fillCmd q (CmdKind.addressDevice sl ptr)) hev q (by simp [tagOf])
      simp [hq]
  | _ => rfl

theorem probeGo_counts : ∀ (l : List Nat) (i : Nat) (m m' : Machine),
    probeGo i l m = some (StepRes.ok m') →
    ∀ j s0, l.get? j = some s0 →
      ((readf s0 1 = true →
        countEnable (i + j) m'.trace = countEnable (i + j) m.trace + 1 ∧
        countAddress (i + j) m'.trace = countAddress (i + j) m.trace + 1) ∧
       (readf s0 1 = false →
        countEnable (i + j) m'.trace = countEnable (i + j) m.trace ∧
        countAddress (i + j) m'.trace = countAddress (i + j) m.trace)) := by
  intro l
  induction l with
  | nil =>
    intro i m m' h j s0 hj
    simp at hj
  | cons s rest ih =>
    intro i m m' h j s0 hj
    obtain ⟨m1, hst, hgo⟩ := probeGo_cons_ok i s rest m m' h
    obtain ⟨Δr, hΔr, htagr⟩ := probeGo_trace_tags rest (i + 1) m1 m' hgo
    cases j with
    | zero =>
      rw [List.get?_cons_zero] at hj
      obtain rfl := Option.some.inj hj
      have hze : countEnable i Δr = 0 := by
        refine countEnable_zero_of_tags i Δr ?_
        intro ev hev q hq
        have := htagr ev hev q hq
        omega
      have hza : countAddress i Δr = 0 := by
        refine countAddress_zero_of_tags i Δr ?_
        intro ev hev q hq
        have := htagr ev hev q hq
        omega
      constructor
      · intro hcon
        obtain ⟨r1, r2, e1, e2, id1, ph1, id2, ph2, hp1, hp2, htr, _⟩ :=
          probeStep_connected_ok i s m m1 hcon hst
        have hse := stepTrace_countEnable i s r1 r2 e1 e2 id1 ph1 id2 ph2 i
        have hsa := stepTrace_countAddress i s r1 r2 e1 e2 id1 ph1 id2 ph2 i
        rw [if_pos rfl] at hse hsa
        rw [hΔr, htr]
        simp only [Nat.add_zero]
        rw [countEnable_append, countEnable_append, countAddress_append,
          countAddress_append]
        unfold countEnable countAddress at *
        omega
      · intro hdis
        obtain rfl := probeStep_ok_of_not_connected i s m m1 hdis hst
        rw [hΔr]
        simp only [Nat.add_zero]
        rw [countEnable_append, countEnable_append, countAddress_append,
          countAddress_append]
        have h1 : countEnable i [Ev.portRead i s] = 0 := by
          simp [countEnable, List.countP_cons, isEnableFill]
        have h2 : countAddress i [Ev.portRead i s] = 0 := by
          simp [countAddress, List.countP_cons, isAddrFill]
        unfold countEnable countAddress at *
        omega
    | succ j9 =>
      rw [List.get?_cons_succ] at hj
      have hidx : i + (j9 + 1) = (i + 1) + j9 := by omega
      rw [hidx]
      have IH := ih (i + 1) m1 m' hgo j9 s0 hj
      have hne : (i + 1) + j9 ≠ i := by omega
      have hm1m : countEnable ((i + 1) + j9) m1.trace =
          countEnable ((i + 1) + j9) m.trace ∧
          countAddress ((i + 1) + j9) m1.trace =
          countAddress ((i + 1) + j9) m.trace := by
        by_cases hcon : readf s 1 = true
        · obtain ⟨r1, r2, e1, e2, id1, ph1, id2, ph2, hp1, hp2, htr, _⟩ :=
            probeStep_connected_ok i s m m1 hcon hst
          have hse := stepTrace_countEnable i s r1 r2 e1 e2 id1 ph1 id2 ph2 ((i + 1) + j9)
          have hsa := stepTrace_countAddress i s r1 r2 e1 e2 id1 ph1 id2 ph2 ((i + 1) + j9)
          rw [if_neg hne] at hse hsa
          rw [htr, countEnable_append, countAddress_append]
          unfold countEnable countAddress at *
          omega
        · have hdis : readf s 1 = false := by
            cases hb : readf s 1
            · rfl
            · exact absurd hb hcon
          obtain rfl := probeStep_ok_of_not_connected i s m m1 hdis hst
          rw [countEnable_append, countAddress_append]
          have h1 : countEnable ((i + 1) + j9) [Ev.portRead i s] = 0 := by
            simp [countEnable, List.countP_cons, isEnableFill]
          have h2 : countAddress ((i + 1) + j9) [Ev.portRead i s] = 0 := by
            simp [countAddress, List.countP_cons, isAddrFill]
          unfold countEnable countAddress at *
          omega
      obtain ⟨he1, ha1⟩ := hm1m
      constructor
      · intro hrd
        obtain ⟨A, B⟩ := IH.1 hrd
        omega
      · intro hrd
        obtain ⟨A, B⟩ := IH.2 hrd
        omega

theorem probeGo_slots : ∀ (l : List Nat) (i : Nat) (m m' : Machine),
    probeGo i l m = some (StepRes.ok m') →
    ∀ p c, Ev.eventRead p 0 c ∈ m'.trace → Ev.eventRead p 0 c ∉ m.trace →
      addrSlotsFor p m'.trace = addrSlotsFor p m.trace ++ [(c >>> 24) % 256] := by
  intro l
  induction l with
  | nil =>
    intro i m m' h p c hin hout
    obtain rfl := probeGo_nil_ok i m m' h
    exact absurd hin hout
  | cons s rest ih =>
    intro i m m' h p c hin hout
    obtain ⟨m1, hst, hgo⟩ := probeGo_cons_ok i s rest m m' h
    obtain ⟨Δr, hΔr, htagr⟩ := probeGo_trace_tags rest (i + 1) m1 m' hgo
    by_cases hin1 : Ev.eventRead p 0 c ∈ m1.trace
    · -- the event belongs to this iteration
      by_cases hcon : readf s 1 = true
      · obtain ⟨r1, r2, e1, e2, id1, ph1, id2, ph2, hp1, hp2, htr, _⟩ :=
          probeStep_connected_ok i s m m1 hcon hst
        rw [htr] at hin1
        rcases List.mem_append.mp hin1 with hd | hd
        · exact absurd hd hout
        · obtain ⟨rfl, rfl⟩ := stepTrace_eventRead0 i s r1 r2 e1 e2 id1 ph1 id2 ph2 p c hd
          have hnilr : addrSlotsFor p Δr = [] := by
            refine addrSlots_nil_of_tags p Δr ?_
            intro ev hev q hq
            have := htagr ev hev q hq
            omega
          rw [hΔr, htr, addrSlots_append, addrSlots_append, hnilr,
            stepTrace_addrSlots, if_pos rfl]
          simp
      · have hdis : readf s 1 = false := by
          cases hb : readf s 1
          · rfl
          · exact absurd hb hcon
        obtain rfl := probeStep_ok_of_not_connected i s m m1 hdis hst
        rcases List.mem_append.mp hin1 with hd | hd
        · exact absurd hd hout
        · rw [List.mem_singleton] at hd
          exact absurd hd (by simp)
    · -- the event belongs to a later iteration
      have hres := ih (i + 1) m1 m' hgo p c hin hin1
      have hp1tag : ∀ q, p = q → q ≥ i + 1 → True := fun _ _ _ => trivial
      -- p is at least i+1 because the event lies in the trace added after m1
      have hpge : i + 1 ≤ p := by
        have hin2 : Ev.eventRead p 0 c ∈ Δr := by
          rcases List.mem_append.mp (hΔr ▸ hin) with hd | hd
          · exact absurd hd hin1
          · exact hd
        have := htagr (Ev.eventRead p 0 c) hin2 p (by simp [tagOf])
        omega
      have hstep : addrSlotsFor p m1.trace = addrSlotsFor p m.trace := by
        by_cases hcon : readf s 1 = true
        · obtain ⟨r1, r2, e1, e2, id1, ph1, id2, ph2, hp1, hp2, htr, _⟩ :=
            probeStep_connected_ok i s m m1 hcon hst
          rw [htr, addrSlots_append, stepTrace_addrSlots, if_neg (by omega)]
          simp
        · have hdis : readf s 1 = false := by
            cases hb : readf s 1
            · rfl
            · exact absurd hb hcon
          obtain rfl := probeStep_ok_of_not_connected i s m m1 hdis hst
          rw [addrSlots_append]
          simp [addrSlotsFor]
      rw [hres, hstep]

theorem probeGo_ws : ∀ (l : List Nat) (i : Nat) (m m' : Machine),
    probeGo i l m = some (StepRes.ok m') →
    ∃ Δ, m'.trace = m.trace ++ Δ ∧ wellSignaled WsMode.scan Δ = true := by
  intro l
  induction l with
  | nil =>
    intro i m m' h
    obtain rfl := probeGo_nil_ok i m m' h
    exact ⟨[], by simp, rfl⟩
  | cons s rest ih =>
    intro i m m' h
    obtain ⟨m1, hst, hgo⟩ := probeGo_cons_ok i s rest m m' h
    obtain ⟨Δr, hΔr, hws⟩ := ih (i + 1) m1 m' hgo
    by_cases hcon : readf s 1 = true
    · obtain ⟨r1, r2, e1, e2, id1, ph1, id2, ph2, hp1, hp2, htr, _⟩ :=
        probeStep_connected_ok i s m m1 hcon hst
      refine ⟨stepTrace i s r1 r2 e1 e2 id1 ph1 id2 ph2 ++ Δr, ?_, ?_⟩
      · rw [hΔr, htr, List.append_assoc]
      · rw [ws_scan_stepTrace i s r1 r2 e1 e2 id1 ph1 id2 ph2 Δr hp1 hp2]
        exact hws
    · have hdis : readf s 1 = false := by
        cases hb : readf s 1
        · rfl
        · exact absurd hb hcon
      obtain rfl := probeStep_ok_of_not_connected i s m m1 hdis hst
      refine ⟨[Ev.portRead i s] ++ Δr, ?_, ?_⟩
      · rw [hΔr]
        simp
      · simpa [wellSignaled] using hws

theorem probeGo_frame : ∀ (l : List Nat) (i : Nat) (m m' : Machine),
    probeGo i l m = some (StepRes.ok m') →
    m'.devices = m.devices ∧ m'.numPorts = m.numPorts ∧
    m'.regs.usb_cmd = m.regs.usb_cmd ∧ m'.regs.config = m.regs.config ∧
    m'.regs.dcbaap = m.regs.dcbaap ∧ m'.regs.crcr = m.regs.crcr ∧
    m'.regs.erstsz = m.regs.erstsz ∧ m'.regs.erdp = m.regs.erdp ∧
    m'.regs.erstba = m.regs.erstba ∧
    m'.cmd.allocId = m.cmd.allocId ∧ m'.cmd.physBase = m.cmd.physBase ∧
    m'.cmd.events.allocId = m.cmd.events.allocId ∧
    m'.cmd.events.physBase = m.cmd.events.physBase ∧
    m'.cmd.events.steAllocId = m.cmd.events.steAllocId ∧
    m'.cmd.events.stePhys = m.cmd.events.stePhys ∧
    m'.world.portStatus = m.world.portStatus := by
  intro l
  induction l with
  | nil =>
    intro i m m' h
    obtain rfl := probeGo_nil_ok i m m' h
    refine ⟨rfl, rfl, rfl, rfl, rfl, rfl, rfl, rfl, rfl, rfl, rfl, rfl, rfl, rfl, rfl, rfl⟩
  | cons s rest ih =>
    intro i m m' h
    obtain ⟨m1, hst, hgo⟩ := probeGo_cons_ok i s rest m m' h
    have IH := ih (i + 1) m1 m' hgo
    by_cases hcon : readf s 1 = true
    · obtain ⟨r1, r2, e1, e2, id1, ph1, id2, ph2, hp1, hp2, htr, hdev, hnp, hregs,
        hps, hcom, hc1, hc2, hc3, hc4, hc5, hc6⟩ :=
        probeStep_connected_ok i s m m1 hcon hst
      obtain ⟨i1, i2, i3, i4, i5, i6, i7, i8, i9, i10, i11, i12, i13, i14, i15, i16⟩ := IH
      refine ⟨by rw [i1, hdev], by rw [i2, hnp], ?_, ?_, ?_, ?_, ?_, ?_, ?_,
        by rw [i10, hc1], by rw [i11, hc2], by rw [i12, hc3], by rw [i13, hc4],
        by rw [i14, hc5], by rw [i15, hc6], by rw [i16, hps]⟩ <;>
        rw [show m1.regs = { m.regs with db0 := 0 } from hregs] at * <;>
        simp_all
    · have hdis : readf s 1 = false := by
        cases hb : readf s 1
        · rfl
        · exact absurd hb hcon
      obtain rfl := probeStep_ok_of_not_connected i s m m1 hdis hst
      simpa using IH

theorem tags_of_stray_zero (i : Nat) (l : List Ev) (h : l.countP (strayTag i) = 0) :
    ∀ ev ∈ l, ∀ q, tagOf ev = some q → q = i := by
  rw [List.countP_eq_zero] at h
  intro ev hev q hq
  have hs := h ev hev
  simp only [strayTag, hq] at hs
  simpa using hs

theorem probeGo_err_shape : ∀ (l : List Nat) (i : Nat) (m mf : Machine) (e : XhciError),
    probeGo i l m = some (StepRes.err e mf) →
    e = XhciError.allocFailure ∧
    ∃ k Δ, i ≤ k ∧ k < i + l.length ∧ mf.trace = m.trace ++ Δ ∧
      (∀ ev ∈ Δ, ∀ q, tagOf ev = some q → q ≤ k) ∧
      Δ.countP (isAddrFill k) = 0 := by
  intro l
  induction l with
  | nil =>
    intro i m mf e h
    unfold probeGo at h
    exact absurd h (by simp)
  | cons s rest ih =>
    intro i m mf e h
    unfold probeGo at h
    cases hst : probeStep i s m with
    | none => rw [hst] at h; exact Option.noConfusion h
    | some r =>
      rw [hst] at h
      cases r with
      | err e0 m1 =>
        injection h with h9
        injection h9 with hee hmm1
        subst hee; subst hmm1
        obtain ⟨he, _, δ, htr, hcnt, hstray⟩ := probeStep_err i s e0 m m1 hst
        have htags := tags_of_stray_zero i δ hstray
        refine ⟨he, i, δ, le_refl i, by simp [List.length_cons], htr, ?_, hcnt⟩
        intro ev hev q hq
        exact le_of_eq (htags ev hev q hq)
      | ok m1 =>
        obtain ⟨he, k, Δr, hk1, hk2, htrr, htagsr, hcntr⟩ := ih (i + 1) m1 mf e h
        subst he
        by_cases hcon : readf s 1 = true
        · obtain ⟨r1, r2, e1, e2, id1, ph1, id2, ph2, hp1, hp2, htr, _⟩ :=
            probeStep_connected_ok i s m m1 hcon hst
          have hδtags := stepTrace_tags i s r1 r2 e1 e2 id1 ph1 id2 ph2
          have hδcnt := stepTrace_countAddress i s r1 r2 e1 e2 id1 ph1 id2 ph2 k
          rw [if_neg (by omega)] at hδcnt
          refine ⟨rfl, k, stepTrace i s r1 r2 e1 e2 id1 ph1 id2 ph2 ++ Δr,
            by omega, by simp only [List.length_cons]; omega, ?_, ?_, ?_⟩
          · rw [htrr, htr, List.append_assoc]
          · intro ev hev q hq
            rcases List.mem_append.mp hev with hev | hev
            · have := hδtags ev hev q hq
              omega
            · exact htagsr ev hev q hq
          · rw [List.countP_append, hδcnt, hcntr]
        · have hdis : readf s 1 = false := by
            cases hb : readf s 1
            · rfl
            · exact absurd hb hcon
          obtain rfl := probeStep_ok_of_not_connected i s m m1 hdis hst
          refine ⟨rfl, k, [Ev.portRead i s] ++ Δr,
            by omega, by simp only [List.length_cons]; omega, ?_, ?_, ?_⟩
          · rw [htrr]
            simp
          · intro ev hev q hq
            rcases List.mem_append.mp hev with hev | hev
            · rw [List.mem_singleton] at hev
              subst hev
              simp [tagOf] at hq
              omega
            · exact htagsr ev hev q hq
          · rw [List.countP_append, hcntr]
            simp [isAddrFill]

/-! Bit-level helpers for the usb_cmd register writes. -/

theorem lor_one_mod_two (v : Nat) : (v ||| 1) % 2 = 1 := by
  have h := Nat.testBit_lor v 1 0
  simp only [Nat.testBit_zero] at h
  have h2 : decide ((v ||| 1) % 2 = 1) = true := by
    rw [h]
    simp
  simpa using h2

theorem lor_two_mod_two (a : Nat) : (a ||| 2) % 2 = a % 2 := by
  have h := Nat.testBit_lor a 2 0
  simp only [Nat.testBit_zero] at h
  rcases Nat.mod_two_eq_zero_or_one a with hv | hv <;>
    rcases Nat.mod_two_eq_zero_or_one (a ||| 2) with hw | hw <;>
    simp [hv, hw] at h ⊢

theorem lor_one_idem (x : Nat) : (x ||| 1) ||| 1 = x ||| 1 := by
  rw [Nat.lor_assoc]
  simp

/-- Clearing the run/stop bit leaves a value whose bit 0 reads clear. -/
theorem readf_writefClear_one (v : Nat) : readf (writefClear v 1) 1 = false := by
  unfold readf writefClear
  rw [Nat.and_one_is_mod]
  have h := lor_one_mod_two v
  have h0 : ((v ||| 1) - 1) % 2 = 0 := by omega
  rw [h0]
  rfl

/-- Setting the reset bit on a bit-0-clear value keeps bit 0 clear. -/
theorem readf_or_two (a : Nat) (h : readf a 1 = false) :
    readf (a ||| 2) 1 = false := by
  unfold readf at h ⊢
  rw [Nat.and_one_is_mod] at h ⊢
  rw [lor_two_mod_two]
  exact h

/-- Extensionality for the register file. -/
theorem RegFile.ext_fields (a b : RegFile)
    (h1 : a.usb_cmd = b.usb_cmd) (h2 : a.config = b.config)
    (h3 : a.dcbaap = b.dcbaap) (h4 : a.crcr = b.crcr)
    (h5 : a.erstsz = b.erstsz) (h6 : a.erdp = b.erdp)
    (h7 : a.erstba = b.erstba) (h8 : a.db0 = b.db0) : a = b := by
  cases a
  cases b
  simp_all

/-! Characterization of init. -/

theorem init_spec (ms : Nat) (m m' : Machine) (h : Xhci.init ms m = some m') :
    m'.regs.config = ms ∧ m'.regs.dcbaap = m.devices.physBase ∧
    m'.regs.crcr = m.cmd.crcr ∧ m'.regs.erstsz = 1 ∧
    m'.regs.erdp = m.cmd.events.physBase ∧ m'.regs.erstba = m.cmd.events.stePhys ∧
    m'.regs.usb_cmd = m.regs.usb_cmd ||| 1 ∧ m'.regs.db0 = 0 ∧
    m'.devices = m.devices ∧ m'.cmd = m.cmd ∧ m'.numPorts = m.numPorts ∧
    m'.world.nextAllocId = m.world.nextAllocId ∧
    m'.world.live = m.world.live ∧
    m'.world.allocResults = m.world.allocResults ∧
    m'.world.committed = m.world.committed ++
      [m.cmd.physBase, m.cmd.events.physBase, m.cmd.events.stePhys] := by
  unfold Xhci.init at h
  dsimp only at h
  cases hp : pollUntil (fun v => !readf v 1) m.world.statusVals with
  | none => rw [hp] at h; exact Option.noConfusion h
  | some pr =>
    obtain ⟨reads, rest⟩ := pr
    rw [hp] at h
    have hm := (Option.some.inj h).symm
    subst hm
    refine ⟨rfl, rfl, rfl, rfl, rfl, rfl, rfl, rfl, rfl, rfl, rfl, rfl, rfl, rfl, rfl⟩

/-- C8: invoking Xhci::init twice in succession with the same max_slots
value and the unchanged DeviceList and CommandRing leaves the enabled-slot
count, DCBAAP, CRCR and interrupter-0 registers (and in fact the whole
register file) with values identical to a single invocation, and performs
no allocation at all. -/
theorem claim_C8 (ms : Nat) (m m1 m2 : Machine)
    (h1 : Xhci.init ms m = some m1) (h2 : Xhci.init ms m1 = some m2) :
    m2.regs = m1.regs ∧ m2.devices = m1.devices ∧ m2.cmd = m1.cmd ∧
    m2.world.nextAllocId = m1.world.nextAllocId ∧
    m2.world.live = m1.world.live ∧
    m1.world.nextAllocId = m.world.nextAllocId ∧
    m1.world.live = m.world.live := by
  obtain ⟨a1, a2, a3, a4, a5, a6, a7, a8, a9, a10, a11, a12, a13, a14, a15⟩ :=
    init_spec ms m m1 h1
  obtain ⟨b1, b2, b3, b4, b5, b6, b7, b8, b9, b10, b11, b12, b13, b14, b15⟩ :=
    init_spec ms m1 m2 h2
  refine ⟨?_, b9, b10, b12, b13, a12, a13⟩
  refine RegFile.ext_fields m2.regs m1.regs ?_ ?_ ?_ ?_ ?_ ?_ ?_ ?_
  · rw [b7, a7]
    exact lor_one_idem _
  · rw [b1, a1]
  · rw [b2, a2, a9]
  · rw [b3, a3, a10]
  · rw [b4, a4]
  · rw [b5, a5, a10]
  · rw [b6, a6, a10]
  · rw [b8, a8]

/-- C8 witness at a concrete machine. -/
theorem claim_C8_witness :
    (initOr 4 (initOr 4 cM)).regs = (initOr 4 cM).regs ∧
    (initOr 4 (initOr 4 cM)).devices = (initOr 4 cM).devices ∧
    (initOr 4 (initOr 4 cM)).cmd = (initOr 4 cM).cmd ∧
    (initOr 4 (initOr 4 cM)).world.nextAllocId = (initOr 4 cM).world.nextAllocId ∧
    (initOr 4 (initOr 4 cM)).world.live = (initOr 4 cM).world.live ∧
    (initOr 4 cM).world.nextAllocId = cM.world.nextAllocId ∧
    (initOr 4 cM).world.live = cM.world.live :=
  claim_C8 4 cM (initOr 4 cM) (initOr 4 (initOr 4 cM)) (by decide) (by decide)

/-! Lifting the probe-loop lemmas to Xhci::probe. -/

theorem probe_inv (m : Machine) (r : StepRes) (h : Xhci.probe m = some r) :
    m.world.portStatus.length = m.numPorts ∧
    probeGo 0 m.world.portStatus m = some r := by
  unfold Xhci.probe at h
  by_cases hg : m.world.portStatus.length = m.numPorts
  · constructor
    · exact hg
    · rw [if_pos (by simp [hg])] at h
      exact h
  · rw [if_neg (by simpa using hg)] at h
    exact absurd h (by simp)

/-- C4: for every port examined by probe, a port whose status has the
connect-status flag set gets exactly one Enable Slot and exactly one
Address Device command, a port with the flag clear gets zero commands; and
with numPorts = 0 probing completes with zero commands issued. -/
theorem claim_C4 (m m' : Machine) (h : Xhci.probe m = some (StepRes.ok m'))
    (ht : m.trace = []) :
    (∀ j s0, m.world.portStatus.get? j = some s0 →
      ((readf s0 1 = true →
        countEnable j m'.trace = 1 ∧ countAddress j m'.trace = 1) ∧
       (readf s0 1 = false →
        countEnable j m'.trace = 0 ∧ countAddress j m'.trace = 0))) ∧
    (m.numPorts = 0 → m'.trace.countP isAnyFill = 0) := by
  obtain ⟨hg, hgo⟩ := probe_inv m (StepRes.ok m') h
  constructor
  · intro j s0 hj
    have hc := probeGo_counts m.world.portStatus 0 m m' hgo j s0 hj
    rw [ht] at hc
    simpa [countEnable, countAddress] using hc
  · intro h0
    have hnil : m.world.portStatus = [] := by
      rw [h0] at hg
      exact List.length_eq_zero.mp hg
    rw [hnil] at hgo
    obtain rfl := probeGo_nil_ok 0 m m' hgo
    rw [ht]
    rfl

/-- C4 witness: port 0 of cM is connected and gets exactly one of each
command. -/
theorem claim_C4_witness :
    countEnable 0 (probeOkOr cM).trace = 1 ∧
    countAddress 0 (probeOkOr cM).trace = 1 :=
  ((claim_C4 cM (probeOkOr cM) (by decide) rfl).1 0 1 (by decide)).1 (by decide)

/-- C3: if the Enable Slot completion event consumed for a port carries
slot id S in bits 24-31 of its control word, then the Address Device
commands submitted for that port reference exactly S (there is exactly one
such command). -/
theorem claim_C3 (m m' : Machine) (h : Xhci.probe m = some (StepRes.ok m'))
    (ht : m.trace = []) (p c : Nat) (he : Ev.eventRead p 0 c ∈ m'.trace) :
    addrSlotsFor p m'.trace = [(c >>> 24) % 256] := by
  obtain ⟨hg, hgo⟩ := probe_inv m (StepRes.ok m') h
  have hs := probeGo_slots m.world.portStatus 0 m m' hgo p c he (by rw [ht]; simp)
  rw [ht] at hs
  simpa [addrSlotsFor] using hs

/-- C3 witness: the simulated Enable Slot completion for port 0 of cM
carries slot id 5, and the Address Device command references exactly 5. -/
theorem claim_C3_witness :
    addrSlotsFor 0 (probeOkOr cM).trace = [((5 <<< 24) >>> 24) % 256] :=
  claim_C3 cM (probeOkOr cM) (by decide) rfl 0 (5 <<< 24) (by decide)

/-- C7: over a successful probe, every filled command is immediately
followed by a write of target 0 to doorbell 0, then polls of the
command-ring control register that read the running flag set until a final
read with it clear, before the next event is read. -/
theorem claim_C7 (m m' : Machine) (h : Xhci.probe m = some (StepRes.ok m'))
    (ht : m.trace = []) :
    wellSignaled WsMode.scan m'.trace = true := by
  obtain ⟨hg, hgo⟩ := probe_inv m (StepRes.ok m') h
  obtain ⟨Δ, hΔ, hws⟩ := probeGo_ws m.world.portStatus 0 m m' hgo
  rw [hΔ, ht]
  simpa using hws

/-- C7 witness at the concrete machine cM. -/
theorem claim_C7_witness : wellSignaled WsMode.scan (probeOkOr cM).trace = true :=
  claim_C7 cM (probeOkOr cM) (by decide) rfl

/-- C10: a successful probe leaves the driver state unchanged except
through ring-slot and doorbell operations: the DeviceList (including every
entry), the port count, every register except the doorbell, and the
identity (allocation and physical base) of the command and event rings are
exactly as before, and no field exists in which the slot id or device
address could have been retained. -/
theorem claim_C10 (m m' : Machine) (h : Xhci.probe m = some (StepRes.ok m')) :
    m'.devices = m.devices ∧ m'.numPorts = m.numPorts ∧
    m'.regs.usb_cmd = m.regs.usb_cmd ∧ m'.regs.config = m.regs.config ∧
    m'.regs.dcbaap = m.regs.dcbaap ∧ m'.regs.crcr = m.regs.crcr ∧
    m'.regs.erstsz = m.regs.erstsz ∧ m'.regs.erdp = m.regs.erdp ∧
    m'.regs.erstba = m.regs.erstba ∧
    m'.cmd.allocId = m.cmd.allocId ∧ m'.cmd.physBase = m.cmd.physBase ∧
    m'.cmd.events.allocId = m.cmd.events.allocId ∧
    m'.cmd.events.physBase = m.cmd.events.physBase ∧
    m'.cmd.events.steAllocId = m.cmd.events.steAllocId ∧
    m'.cmd.events.stePhys = m.cmd.events.stePhys ∧
    m'.world.portStatus = m.world.portStatus := by
  obtain ⟨hg, hgo⟩ := probe_inv m (StepRes.ok m') h
  exact probeGo_frame m.world.portStatus 0 m m' hgo

/-- C10 witness at the concrete machine cM. -/
theorem claim_C10_witness :
    (probeOkOr cM).devices = cM.devices ∧ (probeOkOr cM).numPorts = cM.numPorts ∧
    (probeOkOr cM).regs.usb_cmd = cM.regs.usb_cmd ∧
    (probeOkOr cM).regs.config = cM.regs.config ∧
    (probeOkOr cM).regs.dcbaap = cM.regs.dcbaap ∧
    (probeOkOr cM).regs.crcr = cM.regs.crcr ∧
    (probeOkOr cM).regs.erstsz = cM.regs.erstsz ∧
    (probeOkOr cM).regs.erdp = cM.regs.erdp ∧
    (probeOkOr cM).regs.erstba = cM.regs.erstba ∧
    (probeOkOr cM).cmd.allocId = cM.cmd.allocId ∧
    (probeOkOr cM).cmd.physBase = cM.cmd.physBase ∧
    (probeOkOr cM).cmd.events.allocId = cM.cmd.events.allocId ∧
    (probeOkOr cM).cmd.events.physBase = cM.cmd.events.physBase ∧
    (probeOkOr cM).cmd.events.steAllocId = cM.cmd.events.steAllocId ∧
    (probeOkOr cM).cmd.events.stePhys = cM.cmd.events.stePhys ∧
    (probeOkOr cM).world.portStatus = cM.world.portStatus :=
  claim_C10 cM (probeOkOr cM) (by decide)

/-- C9: if a local allocation fails during probe, probe returns that
allocation error at once: the failing port k receives no Address Device
command and no port after k is examined or commanded. -/
theorem claim_C9 (m mf : Machine) (e : XhciError)
    (h : Xhci.probe m = some (StepRes.err e mf)) :
    e = XhciError.allocFailure ∧
    ∃ k Δ, k < m.numPorts ∧ mf.trace = m.trace ++ Δ ∧
      (∀ ev ∈ Δ, ∀ q, tagOf ev = some q → q ≤ k) ∧
      Δ.countP (isAddrFill k) = 0 := by
  obtain ⟨hg, hgo⟩ := probe_inv m (StepRes.err e mf) h
  obtain ⟨he, k, Δ, hk1, hk2, htr, htags, hcnt⟩ :=
    probeGo_err_shape m.world.portStatus 0 m mf e hgo
  refine ⟨he, k, Δ, ?_, htr, htags, hcnt⟩
  omega

/-- C9 witness: with a failing allocator for port 0's transfer ring, probe
of cF returns the allocation error immediately. -/
theorem claim_C9_witness :
    XhciError.allocFailure = XhciError.allocFailure ∧
    ∃ k Δ, k < cF.numPorts ∧ (probeErrOr cF).trace = cF.trace ++ Δ ∧
      (∀ ev ∈ Δ, ∀ q, tagOf ev = some q → q ≤ k) ∧
      Δ.countP (isAddrFill k) = 0 :=
  claim_C9 cF (probeErrOr cF) XhciError.allocFailure (by decide)

/-! Characterization of the construction-time allocators. -/

theorem DeviceList_new_fail (ms : Nat) (w w' : World) (ev : List Ev)
    (h : DeviceList.new ms w = some (none, w', ev)) :
    (∃ rest, w.allocResults = none :: rest) ∧
    ∀ x ∈ ev, isAllocCat x = true := by
  unfold DeviceList.new at h
  split at h
  · exact Option.noConfusion h
  · rename_i w1 ev1 hal
    obtain ⟨rest, har, hw, hev⟩ := allocDma_fail _ _ _ hal
    injection h with h9
    simp only [Prod.mk.injEq] at h9
    obtain ⟨h1, h2, h3⟩ := h9
    subst hev
    rw [← h3]
    exact ⟨⟨rest, har⟩, by intro x hx; rw [List.mem_singleton] at hx; subst hx; rfl⟩
  · rename_i idph w1 ev1 hal
    injection h with h9
    simp only [Prod.mk.injEq] at h9
    obtain ⟨h1, -⟩ := h9
    exact Option.noConfusion h1

theorem DeviceList_new_ok (ms : Nat) (w : World) (d : DeviceList) (w' : World)
    (ev : List Ev) (h : DeviceList.new ms w = some (some d, w', ev)) :
    (∃ ph rest, w.allocResults = some ph :: rest ∧ w'.allocResults = rest) ∧
    ∀ x ∈ ev, isAllocCat x = true := by
  unfold DeviceList.new at h
  split at h
  · exact Option.noConfusion h
  · rename_i w1 ev1 hal
    injection h with h9
    simp only [Prod.mk.injEq] at h9
    obtain ⟨h1, -⟩ := h9
    exact Option.noConfusion h1
  · rename_i idph w1 ev1 hal
    obtain ⟨rest, har, hid, hw, hev⟩ := allocDma_ok _ _ _ _ hal
    injection h with h9
    simp only [Prod.mk.injEq] at h9
    obtain ⟨h1, h2, h3⟩ := h9
    subst hev
    subst hw
    rw [← h3]
    refine ⟨⟨idph.2, rest, har, by rw [← h2]⟩, ?_⟩
    intro x hx
    rw [List.mem_singleton] at hx
    subst hx
    rfl

theorem CommandRing_new_fail (w w' : World) (ev : List Ev)
    (h : CommandRing.new w = some (none, w', ev)) :
    ∀ x ∈ ev, isAllocCat x = true := by
  unfold CommandRing.new at h
  split at h
  · exact Option.noConfusion h
  · rename_i w1 ev1 hal
    obtain ⟨rest, har, hw, hev⟩ := allocDma_fail _ _ _ hal
    injection h with h9
    simp only [Prod.mk.injEq] at h9
    obtain ⟨h1, h2, h3⟩ := h9
    subst hev
    rw [← h3]
    intro x hx
    rw [List.mem_singleton] at hx
    subst hx
    rfl
  · rename_i c w1 ev1 hal
    obtain ⟨rest1, har1, hid1, hw1, hev1⟩ := allocDma_ok _ _ _ _ hal
    split at h
    · exact Option.noConfusion h
    · rename_i w2 ev2 hal2
      obtain ⟨rest2, har2, hw2, hev2⟩ := allocDma_fail _ _ _ hal2
      injection h with h9
      simp only [Prod.mk.injEq] at h9
      obtain ⟨h1, h2, h3⟩ := h9
      subst hev1
      subst hev2
      rw [← h3]
      intro x hx
      simp only [freeDma, List.mem_append, List.mem_singleton] at hx
      rcases hx with (hx | hx) | hx <;> subst hx <;> rfl
    · rename_i e2 w2 ev2 hal2
      obtain ⟨rest2, har2, hid2, hw2, hev2⟩ := allocDma_ok _ _ _ _ hal2
      split at h
      · exact Option.noConfusion h
      · rename_i w3 ev3 hal3
        obtain ⟨rest3, har3, hw3, hev3⟩ := allocDma_fail _ _ _ hal3
        injection h with h9
        simp only [Prod.mk.injEq] at h9
        obtain ⟨h1, h2, h3⟩ := h9
        subst hev1
        subst hev2
        subst hev3
        rw [← h3]
        intro x hx
        simp only [freeDma, List.mem_append, List.mem_singleton] at hx
        rcases hx with (((hx | hx) | hx) | hx) | hx <;> subst hx <;> rfl
      · rename_i st w3 ev3 hal3
        injection h with h9
        simp only [Prod.mk.injEq] at h9
        obtain ⟨h1, -⟩ := h9
        exact Option.noConfusion h1

theorem CommandRing_new_ok (w : World) (c : CommandRing) (w' : World)
    (ev : List Ev) (h : CommandRing.new w = some (some c, w', ev)) :
    (∃ p1 p2 p3 rest, w.allocResults = some p1 :: some p2 :: some p3 :: rest) ∧
    ∀ x ∈ ev, isAllocCat x = true := by
  unfold CommandRing.new at h
  split at h
  · exact Option.noConfusion h
  · rename_i w1 ev1 hal
    injection h with h9
    simp only [Prod.mk.injEq] at h9
    obtain ⟨h1, -⟩ := h9
    exact Option.noConfusion h1
  · rename_i c1 w1 ev1 hal
    obtain ⟨rest1, har1, hid1, hw1, hev1⟩ := allocDma_ok _ _ _ _ hal
    split at h
    · exact Option.noConfusion h
    · rename_i w2 ev2 hal2
      injection h with h9
      simp only [Prod.mk.injEq] at h9
      obtain ⟨h1, -⟩ := h9
      exact Option.noConfusion h1
    · rename_i e2 w2 ev2 hal2
      obtain ⟨rest2, har2, hid2, hw2, hev2⟩ := allocDma_ok _ _ _ _ hal2
      split at h
      · exact Option.noConfusion h
      · rename_i w3 ev3 hal3
        injection h with h9
        simp only [Prod.mk.injEq] at h9
        obtain ⟨h1, -⟩ := h9
        exact Option.noConfusion h1
      · rename_i st w3 ev3 hal3
        obtain ⟨rest3, har3, hid3, hw3, hev3⟩ := allocDma_ok _ _ _ _ hal3
        injection h with h9
        simp only [Prod.mk.injEq] at h9
        obtain ⟨h1, h2, h3⟩ := h9
        subst hev1
        subst hev2
        subst hev3
        subst hw1
        subst hw2
        refine ⟨⟨c1.2, e2.2, st.2, ?_⟩, ?_⟩
        · dsimp only at har2 har3
          rw [har1, har2, har3]
          exact ⟨rest3, rfl⟩
        · rw [← h3]
          intro x hx
          simp only [List.mem_append, List.mem_singleton] at hx
          rcases hx with (hx | hx) | hx <;> subst hx <;> rfl

theorem freeDma_snd (id : Nat) (w : World) : (freeDma id w).2 = [Ev.freeEv id] := rfl

theorem newErrTrace_props (rds1 rds2 rds3 : List Nat) (cc1 cc2 : Nat) (ev tr : List Ev)
    (hb1 : readf cc1 1 = false) (hb2 : readf cc2 1 = false)
    (hcat : ∀ x ∈ ev, isAllocCat x = true)
    (htr : tr = rds1.map Ev.statusRead ++ ([Ev.regWrite Reg.usb_cmd cc1] ++
      (rds2.map Ev.statusRead ++ ([Ev.regWrite Reg.usb_cmd cc2] ++
      (rds3.map Ev.statusRead ++ ev))))) :
    (∀ v, Ev.regWrite Reg.usb_cmd v ∈ tr → readf v 1 = false) ∧
    (∀ a b, Ev.doorbell a b ∉ tr) ∧
    (∀ rg v, Ev.regWrite rg v ∈ tr → rg = Reg.usb_cmd) := by
  subst htr
  refine ⟨?_, ?_, ?_⟩
  · intro v hv
    simp only [List.mem_append, List.mem_map, List.mem_singleton] at hv
    rcases hv with ⟨x, _, hx⟩ | hx | ⟨x, _, hx⟩ | hx | ⟨x, _, hx⟩ | hx
    · exact absurd hx (by simp)
    · injection hx with h1 h2
      rw [h2]
      exact hb1
    · exact absurd hx (by simp)
    · injection hx with h1 h2
      rw [h2]
      exact hb2
    · exact absurd hx (by simp)
    · have := hcat _ hx
      simp [isAllocCat] at this
  · intro a b hv
    simp only [List.mem_append, List.mem_map, List.mem_singleton] at hv
    rcases hv with ⟨x, _, hx⟩ | hx | ⟨x, _, hx⟩ | hx | ⟨x, _, hx⟩ | hx
    · exact absurd hx (by simp)
    · exact absurd hx (by simp)
    · exact absurd hx (by simp)
    · exact absurd hx (by simp)
    · exact absurd hx (by simp)
    · have := hcat _ hx
      simp [isAllocCat] at this
  · intro rg v hv
    simp only [List.mem_append, List.mem_map, List.mem_singleton] at hv
    rcases hv with ⟨x, _, hx⟩ | hx | ⟨x, _, hx⟩ | hx | ⟨x, _, hx⟩ | hx
    · exact absurd hx (by simp)
    · simp only [Ev.regWrite.injEq] at hx
      exact hx.1
    · exact absurd hx (by simp)
    · simp only [Ev.regWrite.injEq] at hx
      exact hx.1
    · exact absurd hx (by simp)
    · have := hcat _ hx
      simp [isAllocCat] at this

/-- C6: if allocation of the DeviceList or the CommandRing fails during
construction, Xhci::new returns a construction error and no driver
instance, and up to that point the only registers written are the usb_cmd
stop and reset writes, none of which sets the run/stop bit, and no
doorbell has been rung: nothing that starts the controller has been
touched. -/
theorem claim_C6 (p : NewParams) (w0 : World) (r : NewRes)
    (h : Xhci.new p w0 = some r) (hfail : none ∈ w0.allocResults.take 4) :
    ∃ tr, r = NewRes.err XhciError.allocFailure tr ∧
      (∀ v, Ev.regWrite Reg.usb_cmd v ∈ tr → readf v 1 = false) ∧
      (∀ a b, Ev.doorbell a b ∉ tr) ∧
      (∀ rg v, Ev.regWrite rg v ∈ tr → rg = Reg.usb_cmd) := by
  have hb1 : readf (writefClear p.regs0.usb_cmd 1) 1 = false :=
    readf_writefClear_one p.regs0.usb_cmd
  have hb2 : readf (writefClear p.regs0.usb_cmd 1 ||| 2) 1 = false :=
    readf_or_two _ hb1
  unfold Xhci.new at h
  split at h
  · exact Option.noConfusion h
  · rename_i rds1 sv1 hpo1
    try dsimp only at h
    split at h
    · exact Option.noConfusion h
    · rename_i rds2 sv2 hpo2
      try dsimp only at h
      split at h
      · exact Option.noConfusion h
      · rename_i rds3 sv3 hpo3
        try dsimp only at h
        split at h
        · exact Option.noConfusion h
        · rename_i wD evD hD
          obtain ⟨⟨restD, harD⟩, hcatD⟩ := DeviceList_new_fail _ _ _ _ hD
          obtain rfl := (Option.some.inj h).symm
          exact ⟨_, rfl, newErrTrace_props rds1 rds2 rds3 _ _ evD _ hb1 hb2 hcatD
            (by simp [List.append_assoc])⟩
        · rename_i devices w2 ev1 hDok
          obtain ⟨⟨phD, restD, harD, harD2⟩, hcatD⟩ := DeviceList_new_ok _ _ _ _ _ hDok
          split at h
          · exact Option.noConfusion h
          · rename_i w3f ev2 hCf
            have hcatC := CommandRing_new_fail _ _ _ hCf
            obtain rfl := (Option.some.inj h).symm
            refine ⟨_, rfl, newErrTrace_props rds1 rds2 rds3 _ _
              (ev1 ++ (ev2 ++ (freeDma devices.allocId w3f).2)) _ hb1 hb2 ?_
              (by simp [List.append_assoc])⟩
            intro x hx
            rcases List.mem_append.mp hx with hx | hx
            · exact hcatD x hx
            · rcases List.mem_append.mp hx with hx | hx
              · exact hcatC x hx
              · rw [freeDma_snd, List.mem_singleton] at hx
                subst hx
                rfl
          · rename_i cmd w3 ev2 hCok
            obtain ⟨⟨p1, p2, p3, restC, harC⟩, hcatC⟩ := CommandRing_new_ok _ _ _ _ hCok
            dsimp only at harD
            rw [harD2] at harC
            rw [harD, harC] at hfail
            simp [List.take] at hfail

/-- C6 witness: with the DeviceList allocation failing, construction
returns the error before any controller-starting register write. -/
theorem claim_C6_witness :
    ∃ tr, newResOr c6p c6w = NewRes.err XhciError.allocFailure tr ∧
      (∀ v, Ev.regWrite Reg.usb_cmd v ∈ tr → readf v 1 = false) ∧
      (∀ a b, Ev.doorbell a b ∉ tr) ∧
      (∀ rg v, Ev.regWrite rg v ∈ tr → rg = Reg.usb_cmd) :=
  claim_C6 c6p c6w (newResOr c6p c6w) (by decide) (by decide)

/-- C1: the completion code of the Enable Slot completion event is never
inspected: with completion code 4 (a failure) and slot id 5 in the event,
probe still issues exactly one Address Device command for the port,
referencing the bogus slot id 5, and reports success instead of a
CommandCompletionFailure. -/
theorem claim_C1 :
    Trb.completionCode c1e1 = 4 ∧ completionSuccess = 1 ∧
    probeOutcome c1p c1w = some (1, [5]) := by
  refine ⟨by decide, by decide, by decide⟩

/-- C2: after a successful probe of a connected port, the physical base
of the per-port transfer ring (24576) is committed to the controller via
the endpoint-0 context of the Address Device command, yet its backing
allocation has been freed by the end of the loop iteration: it is the one
committed ring address that is no longer owned by the driver (the command
ring, event ring and segment table committed during init stay live). -/
theorem claim_C2 : committedNotLive c1p c1w = some [24576] := by decide

/-- C5 counterexample: the parameter word 0x00010004 has bits 24-31 equal
to 0, so construction derives max_ports = 0, not 1: the mapped Port array
is empty. -/
theorem claim_C5_cex :
    maxSlotsOf 0x00010004 = 4 ∧ maxPortsOf 0x00010004 = 0 ∧
    newNumPorts c5p c5w = some 0 ∧ newNumPorts c5p c5w ≠ some 1 := by
  refine ⟨by decide, by decide, by decide, by decide⟩

/-- C5 (amended): for the capability parameter word 0x00010004,
construction derives max_slots = 4 (bits 0-7) and max_ports = 0
(bits 24-31), so the mapped Port array has length 0 and the DeviceList is
sized for 4 slots. -/
theorem claim_C5 :
    maxSlotsOf 0x00010004 = 4 ∧ maxPortsOf 0x00010004 = 0 ∧
    newNumPorts c5p c5w = some 0 ∧ newDevLen c5p c5w = some 4 := by
  refine ⟨by decide, by decide, by decide, by decide⟩

end Xhcid
